import Mathlib

/-!
ULTRA query benchmark: the transfer-time savings analysis.

A shallow embedding of `ComputeTransferTimeSavings` from
`Runnables/Commands/QueryBenchmark.h`: the selection loop over the labels of a query,
the savings sample, the descending sort, the cursor walk over the thresholds, the
conversion of bucket counts to ratios and the rows of the report; and of the two query
generators of the same header.

Conventions of the embedding.
* A C++ `double` is an exact rational (`ℚ`); the only non-finite values the command can
  produce, the quotients by a sample count of zero, are explicit constructors of `Ratio`.
* An `int` walking distance is an unbounded `Int`.
* A read or write past the end of a `std::vector` is undefined behaviour in C++; the
  embedding reports it as `Except.error Fault.outOfRange`. Constructing a
  `std::uniform_int_distribution(a, b)` with `b < a` is undefined behaviour as well; the
  embedding reports it as `Except.error Fault.precondition`.
* The random engine and the distribution of the standard library are parameters of the
  generators (`RandomLibrary`), and so is the order in which the arguments of `emplace_back`
  are evaluated (`ArgumentOrder`).
-/

namespace ULTRA

/-! ## Data model -/

/-- Modelled from the spec: the struct `RAPTOR::ArrivalLabel` is declared outside the
command's header; the spec gives it the two fields `arrivalTime` and `numberOfTrips`. -/
structure ArrivalLabel where
  arrivalTime : Int
  numberOfTrips : Nat
  deriving DecidableEq, Repr

/-- Modelled from the spec: the struct `RAPTOR::WalkingParetoLabel` is declared outside the
command's header; the spec gives it the three fields `arrivalTime`, `numberOfTrips` and
`walkingDistance`. The header converts `walkingDistance` with `static_cast<double>`, so it is
an integer here. What a default-constructed label holds is not visible in the header either:
every definition below takes the default-constructed label as its first argument. -/
structure WalkingParetoLabel where
  arrivalTime : Int
  numberOfTrips : Nat
  walkingDistance : Int
  deriving DecidableEq, Repr

/-! ## The per-query procedure -/

/-- The loop of `ComputeTransferTimeSavings::isAnchorLabel`: skip an anchor label whose
arrival time differs, skip one whose number of trips differs, return `true` at the first
anchor label that is left, `false` when the anchor labels are exhausted. -/
def isAnchorLabel (label : WalkingParetoLabel) : List ArrivalLabel → Bool
  | [] => false
  | anchorLabel :: rest =>
    if label.arrivalTime ≠ anchorLabel.arrivalTime then isAnchorLabel label rest
    else if label.numberOfTrips ≠ anchorLabel.numberOfTrips then isAnchorLabel label rest
    else true

/-- One iteration of the selection loop: the pair is `(bestLabel, bestAnchorLabel)`; the two
`if` statements are independent, and both compare with `<=`. -/
def selectStep (anchorLabels : List ArrivalLabel)
    (best : WalkingParetoLabel × WalkingParetoLabel) (label : WalkingParetoLabel) :
    WalkingParetoLabel × WalkingParetoLabel :=
  let bestLabel :=
    if label.walkingDistance ≤ best.1.walkingDistance then label else best.1
  let bestAnchorLabel :=
    if label.walkingDistance ≤ best.2.walkingDistance && isAnchorLabel label anchorLabels
    then label else best.2
  (bestLabel, bestAnchorLabel)

/-- The selection loop `for (label : fullLabels)`, started from two default-constructed
labels; the result is `(bestLabel, bestAnchorLabel)`. -/
def selectBest (dflt : WalkingParetoLabel) (fullLabels : List WalkingParetoLabel)
    (anchorLabels : List ArrivalLabel) : WalkingParetoLabel × WalkingParetoLabel :=
  fullLabels.foldl (selectStep anchorLabels) (dflt, dflt)

/-- The value appended to `transferTimeSavings` after the selection loop: `0` when
`bestAnchorLabel.walkingDistance == 0`, otherwise the integer difference divided by the
anchor distance converted to `double`. -/
def savingsOf (bestLabel bestAnchorLabel : WalkingParetoLabel) : ℚ :=
  if bestAnchorLabel.walkingDistance = 0 then 0
  else ((bestAnchorLabel.walkingDistance - bestLabel.walkingDistance : Int) : ℚ)
        / (bestAnchorLabel.walkingDistance : ℚ)

/-- The savings sample of one query: the selection loop followed by `savingsOf`. -/
def savingsSample (dflt : WalkingParetoLabel) (fullLabels : List WalkingParetoLabel)
    (anchorLabels : List ArrivalLabel) : ℚ :=
  savingsOf (selectBest dflt fullLabels anchorLabels).1
    (selectBest dflt fullLabels anchorLabels).2

/-! ## The batch reduction -/

/-- The ways the embedded code can leave the defined behaviour of C++. -/
inductive Fault where
  | outOfRange
  | precondition
  deriving DecidableEq, Repr

/-- The call `std::sort(..., a > b)`: the samples in descending order. -/
def sortDescending (samples : List ℚ) : List ℚ :=
  samples.insertionSort (fun a b => a ≥ b)

/-- The inner loop `while (s < thresholds[j]) { j++; if (j == thresholds.size()) break; }`.
It returns the cursor after the loop; reading `thresholds[j]` with `j` past the end is a
fault. -/
def advanceCursor (thresholds : List ℚ) (s : ℚ) (j : Nat) : Except Fault Nat :=
  if h : j < thresholds.length then
    if s < thresholds[j] then
      if j + 1 = thresholds.length then .ok (j + 1)
      else advanceCursor thresholds s (j + 1)
    else .ok j
  else .error .outOfRange
termination_by thresholds.length - j

/-- The loop `for (s : transferTimeSavings)` with the cursor `j` and the vector
`savingsCount`: advance the cursor, stop the whole loop when it reached
`thresholds.size()`, otherwise increment `savingsCount[j]`. -/
def binLoop (thresholds : List ℚ) : List ℚ → Nat → List Nat → Except Fault (List Nat)
  | [], _, savingsCount => .ok savingsCount
  | s :: rest, j, savingsCount =>
    match advanceCursor thresholds s j with
    | .error e => .error e
    | .ok j1 =>
      if j1 = thresholds.length then .ok savingsCount
      else
        match savingsCount[j1]? with
        | none => .error .outOfRange
        | some c => binLoop thresholds rest j1 (savingsCount.set j1 (c + 1))

/-- The batch reduction of one configuration up to the bucket counts: sort descending, then
walk the sorted samples with `j = 0` and `savingsCount` a vector of `thresholds.size()`
zeros. -/
def savingsCounts (thresholds : List ℚ) (samples : List ℚ) : Except Fault (List Nat) :=
  binLoop thresholds (sortDescending samples) 0 (List.replicate thresholds.length 0)

/-- The value of `c / static_cast<double>(n)` for two sizes: a rational when `n` is not
zero, and the IEEE results of a division by zero otherwise. -/
inductive Ratio where
  | value (q : ℚ)
  | nan
  | inf
  deriving DecidableEq, Repr

/-- The quotient `c/static_cast<double>(transferTimeSavings.size())`. -/
def ratioOf (c n : Nat) : Ratio :=
  if n = 0 then (if c = 0 then .nan else .inf) else .value ((c : ℚ) / (n : ℚ))

/-- The ratios written for one configuration: every bucket count divided by the number of
samples. The code has no other exit: it returns the ratios, or leaves defined behaviour
inside the cursor walk. -/
def savingsRatios (thresholds : List ℚ) (samples : List ℚ) : Except Fault (List Ratio) :=
  match savingsCounts thresholds samples with
  | .error e => .error e
  | .ok savingsCount => .ok (savingsCount.map (fun c => ratioOf c samples.length))

/-! ## One configuration of the parameter grid -/

/-- The struct `VertexQuery` of the header. -/
structure VertexQuery where
  source : Nat
  target : Nat
  departureTime : Int
  deriving DecidableEq, Repr

/-- Modelled from the spec: the engine `RAPTOR::UBMRAPTOR` is outside the header. The spec
gives it `run(source, departureTime, target, arrivalSlack, tripSlack)` followed by
`getResults()` and `getAnchorLabels()`, which read the label sets of the last query; here
the two label sets are functions of the query and the two slacks. -/
structure Engine where
  getResults : VertexQuery → ℚ → ℚ → List WalkingParetoLabel
  getAnchorLabels : VertexQuery → ℚ → ℚ → List ArrivalLabel

/-- The vector `transferTimeSavings` after the loop `for (query : queries)`: one
`emplace_back` per query, in the order of the queries. -/
def transferTimeSavings (dflt : WalkingParetoLabel) (engine : Engine)
    (queries : List VertexQuery) (arrivalSlack tripSlack : ℚ) : List ℚ :=
  queries.map (fun query =>
    savingsSample dflt (engine.getResults query arrivalSlack tripSlack)
      (engine.getAnchorLabels query arrivalSlack tripSlack))

/-- The ratios written for one `(arrivalSlack, tripSlack)` configuration. -/
def configurationRatios (dflt : WalkingParetoLabel) (engine : Engine) (thresholds : List ℚ)
    (queries : List VertexQuery) (arrivalSlack tripSlack : ℚ) : Except Fault (List Ratio) :=
  savingsRatios thresholds (transferTimeSavings dflt engine queries arrivalSlack tripSlack)

/-- The member `thresholds { 0.75, 0.5, 0.25 }` of the command. -/
def ComputeTransferTimeSavings.thresholds : List ℚ := [3 / 4, 1 / 2, 1 / 4]

/-- The member `arrivalSlacks { 1, 1.1, 1.2, 1.3, 1.4, 1.5 }` of the command. -/
def ComputeTransferTimeSavings.arrivalSlacks : List ℚ := [1, 11 / 10, 6 / 5, 13 / 10, 7 / 5, 3 / 2]

/-- The member `tripSlacks { 1, 1.25, 1.5 }` of the command. -/
def ComputeTransferTimeSavings.tripSlacks : List ℚ := [1, 5 / 4, 3 / 2]

/-! ## The per-sample classification of the spec -/

/-- Following the spec's words, not the code: `classify(sample, thresholds)` is the first
index `j` with `sample >= thresholds[j]`, and `none` when the sample is below every
threshold. -/
def classify (s : ℚ) : List ℚ → Option Nat
  | [] => none
  | t :: rest => if s ≥ t then some 0 else (classify s rest).map (fun j => j + 1)

/-- Following the spec's words, not the code: classify every sample on its own and tally
the indices; entry `j` is the number of samples classified `j`. -/
def tally (thresholds : List ℚ) (samples : List ℚ) : List Nat :=
  (List.range thresholds.length).map
    (fun j => samples.countP (fun s => classify s thresholds == some j))

/-! ## The loop over the queries, statement by statement -/

/-- One iteration of the loop `for (query : queries)`: run the engine, select the two best
labels, and append to `transferTimeSavings` through one of the two `emplace_back` calls: `0`
when `bestAnchorLabel.walkingDistance == 0`, the quotient otherwise. -/
def emplaceSample (dflt : WalkingParetoLabel) (engine : Engine) (arrivalSlack tripSlack : ℚ)
    (transferTimeSavings : List ℚ) (query : VertexQuery) : List ℚ :=
  let best := selectBest dflt (engine.getResults query arrivalSlack tripSlack)
    (engine.getAnchorLabels query arrivalSlack tripSlack)
  if best.2.walkingDistance = 0 then
    transferTimeSavings ++ [0]
  else
    transferTimeSavings
      ++ [((best.2.walkingDistance - best.1.walkingDistance : Int) : ℚ)
            / (best.2.walkingDistance : ℚ)]

/-- The loop `for (query : queries)` started with the empty vector `transferTimeSavings`. -/
def queryLoop (dflt : WalkingParetoLabel) (engine : Engine) (queries : List VertexQuery)
    (arrivalSlack tripSlack : ℚ) : List ℚ :=
  queries.foldl (emplaceSample dflt engine arrivalSlack tripSlack) []

/-! ## The cursor walk with a counter of the cursor advances -/

/-- The inner `while` loop once more, as in `advanceCursor`, with a counter `steps` that is
incremented at every execution of `j++`; the result is the cursor and the counter. -/
def advanceCursorCount (thresholds : List ℚ) (s : ℚ) (j steps : Nat) :
    Except Fault (Nat × Nat) :=
  if h : j < thresholds.length then
    if s < thresholds[j] then
      if j + 1 = thresholds.length then .ok (j + 1, steps + 1)
      else advanceCursorCount thresholds s (j + 1) (steps + 1)
    else .ok (j, steps)
  else .error .outOfRange
termination_by thresholds.length - j

/-- The loop `for (s : transferTimeSavings)` once more, as in `binLoop`, carrying the counter
of the executions of `j++`; the result is the counter and `savingsCount`. -/
def binLoopCount (thresholds : List ℚ) :
    List ℚ → Nat → Nat → List Nat → Except Fault (Nat × List Nat)
  | [], _, steps, savingsCount => .ok (steps, savingsCount)
  | s :: rest, j, steps, savingsCount =>
    match advanceCursorCount thresholds s j steps with
    | .error e => .error e
    | .ok (j1, steps1) =>
      if j1 = thresholds.length then .ok (steps1, savingsCount)
      else
        match savingsCount[j1]? with
        | none => .error .outOfRange
        | some c => binLoopCount thresholds rest j1 steps1 (savingsCount.set j1 (c + 1))

/-! ## The report -/

/-- One tab-separated column of the report: a header text, the arrival slack that starts a
data row, or a ratio. -/
inductive Cell where
  | text (s : String)
  | number (q : ℚ)
  | ratio (r : Ratio)
  deriving DecidableEq

/-- The conversion of a `double` to `int`: truncation towards zero. -/
def truncate (q : ℚ) : Int :=
  if 0 ≤ q then ⌊q⌋ else ⌈q⌉

/-- The header column of one `(tripSlack, threshold)` pair:
`"TripSlack" << slackAsInt << "Savings" << thresholdAsInt`. -/
def headerCell (tripSlack threshold : ℚ) : Cell :=
  .text ("TripSlack" ++ toString (truncate (tripSlack * 100 - 100))
    ++ "Savings" ++ toString (truncate (threshold * 100)))

/-- The header row: `"ArrivalSlack"`, then the two nested loops over `tripSlacks` and
`thresholds`, each iteration writing a tab and one header column. -/
def headerRow (tripSlacks thresholds : List ℚ) : List Cell :=
  tripSlacks.foldl
    (fun out tripSlack =>
      thresholds.foldl (fun out threshold => out ++ [headerCell tripSlack threshold]) out)
    [Cell.text ("ArrivalSlack")]

/-- The loop `for (tripSlack : tripSlacks)` inside one data row: each configuration computes
its bucket counts and the loop `for (c : savingsCount)` writes a tab and one ratio per
count. -/
def writeConfigurations (dflt : WalkingParetoLabel) (engine : Engine) (thresholds : List ℚ)
    (queries : List VertexQuery) (arrivalSlack : ℚ) :
    List ℚ → List Cell → Except Fault (List Cell)
  | [], out => .ok out
  | tripSlack :: rest, out =>
    match savingsCounts thresholds
        (transferTimeSavings dflt engine queries arrivalSlack tripSlack) with
    | .error e => .error e
    | .ok savingsCount =>
      writeConfigurations dflt engine thresholds queries arrivalSlack rest
        (savingsCount.foldl
          (fun out c => out ++ [Cell.ratio (ratioOf c
            (transferTimeSavings dflt engine queries arrivalSlack tripSlack).length)])
          out)

/-- The loop `for (arrivalSlack : arrivalSlacks)`: every iteration writes the arrival slack,
the ratios of all its configurations, and ends the row. -/
def writeRows (dflt : WalkingParetoLabel) (engine : Engine) (tripSlacks thresholds : List ℚ)
    (queries : List VertexQuery) : List ℚ → List (List Cell) → Except Fault (List (List Cell))
  | [], rows => .ok rows
  | arrivalSlack :: rest, rows =>
    match writeConfigurations dflt engine thresholds queries arrivalSlack tripSlacks
        [Cell.number arrivalSlack] with
    | .error e => .error e
    | .ok row => writeRows dflt engine tripSlacks thresholds queries rest (rows ++ [row])

/-- The report written by `ComputeTransferTimeSavings::execute` for given queries: the header
row followed by the data rows, each row a list of columns. -/
def execute (dflt : WalkingParetoLabel) (engine : Engine)
    (arrivalSlacks tripSlacks thresholds : List ℚ) (queries : List VertexQuery) :
    Except Fault (List (List Cell)) :=
  writeRows dflt engine tripSlacks thresholds queries arrivalSlacks
    [headerRow tripSlacks thresholds]

/-! ## The query generators -/

/-- The struct `StopQuery` of the header. -/
structure StopQuery where
  source : Nat
  target : Nat
  departureTime : Int
  deriving DecidableEq, Repr

/-- The part of the C++ standard library the generators use, over a type `G` of engine
states: `mt19937 seed` is the state of `std::mt19937(seed)`, and `uniformInt a b g` is one
call of a `std::uniform_int_distribution<int>(a, b)` on an engine in state `g`, giving the
drawn value and the next state. -/
structure RandomLibrary (G : Type) where
  mt19937 : Nat → G
  uniformInt : Int → Int → G → Int × G

/-- The order in which a compiled program evaluates the three arguments of `emplace_back`
(`s` the source, `t` the target, `d` the departure time); C++ leaves it unspecified. -/
inductive ArgumentOrder where
  | std | sdt | tsd | tds | dst | dts
  deriving DecidableEq, Repr

/-- The value of `n - 1` computed in `size_t` (64 bits). -/
def sizeMinusOne (n : Nat) : Nat :=
  (n + 18446744073709551616 - 1) % 18446744073709551616

/-- The conversion of a `size_t` to the `int` parameter of the distribution (32 bits, two's
complement). -/
def toInt (n : Nat) : Int :=
  if n % 4294967296 < 2147483648 then ((n % 4294967296 : Nat) : Int)
  else ((n % 4294967296 : Nat) : Int) - 4294967296

/-- The three draws of one `emplace_back`: source and target from the distribution over
`[0, hi]`, the departure time from the distribution over `[0, 24 * 60 * 60 - 1]`, in the
given order of evaluation. The result is `(source, target, departureTime)` and the next
engine state. -/
def drawArguments {G : Type} (lib : RandomLibrary G) (order : ArgumentOrder) (hi : Int)
    (g : G) : (Int × Int × Int) × G :=
  match order with
  | .std =>
    let s := lib.uniformInt 0 hi g
    let t := lib.uniformInt 0 hi s.2
    let d := lib.uniformInt 0 (24 * 60 * 60 - 1) t.2
    ((s.1, t.1, d.1), d.2)
  | .sdt =>
    let s := lib.uniformInt 0 hi g
    let d := lib.uniformInt 0 (24 * 60 * 60 - 1) s.2
    let t := lib.uniformInt 0 hi d.2
    ((s.1, t.1, d.1), t.2)
  | .tsd =>
    let t := lib.uniformInt 0 hi g
    let s := lib.uniformInt 0 hi t.2
    let d := lib.uniformInt 0 (24 * 60 * 60 - 1) s.2
    ((s.1, t.1, d.1), d.2)
  | .tds =>
    let t := lib.uniformInt 0 hi g
    let d := lib.uniformInt 0 (24 * 60 * 60 - 1) t.2
    let s := lib.uniformInt 0 hi d.2
    ((s.1, t.1, d.1), s.2)
  | .dst =>
    let d := lib.uniformInt 0 (24 * 60 * 60 - 1) g
    let s := lib.uniformInt 0 hi d.2
    let t := lib.uniformInt 0 hi s.2
    ((s.1, t.1, d.1), t.2)
  | .dts =>
    let d := lib.uniformInt 0 (24 * 60 * 60 - 1) g
    let t := lib.uniformInt 0 hi d.2
    let s := lib.uniformInt 0 hi t.2
    ((s.1, t.1, d.1), s.2)

/-- The loop `for (size_t i = 0; i < numQueries; i++)` of `generateRandomVertexQueries`, by
the number of iterations that are left. -/
def vertexQueryLoop {G : Type} (lib : RandomLibrary G) (order : ArgumentOrder) (hi : Int) :
    Nat → G → List VertexQuery → List VertexQuery
  | 0, _, queries => queries
  | n + 1, g, queries =>
    let a := drawArguments lib order hi g
    vertexQueryLoop lib order hi n a.2
      (queries ++ [⟨a.1.1.toNat, a.1.2.1.toNat, a.1.2.2⟩])

/-- The function `generateRandomVertexQueries(numVertices, numQueries)`: an engine seeded
with `42`, a distribution over `[0, numVertices - 1]`, whose construction requires
`0 <= numVertices - 1` after the conversion to `int`, and the loop. -/
def generateRandomVertexQueries {G : Type} (lib : RandomLibrary G) (order : ArgumentOrder)
    (numVertices numQueries : Nat) : Except Fault (List VertexQuery) :=
  if 0 ≤ toInt (sizeMinusOne numVertices) then
    .ok (vertexQueryLoop lib order (toInt (sizeMinusOne numVertices)) numQueries
      (lib.mt19937 42) [])
  else .error .precondition

/-- The loop `for (size_t i = 0; i < numQueries; i++)` of `generateRandomStopQueries`. -/
def stopQueryLoop {G : Type} (lib : RandomLibrary G) (order : ArgumentOrder) (hi : Int) :
    Nat → G → List StopQuery → List StopQuery
  | 0, _, queries => queries
  | n + 1, g, queries =>
    let a := drawArguments lib order hi g
    stopQueryLoop lib order hi n a.2
      (queries ++ [⟨a.1.1.toNat, a.1.2.1.toNat, a.1.2.2⟩])

/-- The function `generateRandomStopQueries(numStops, numQueries)`. -/
def generateRandomStopQueries {G : Type} (lib : RandomLibrary G) (order : ArgumentOrder)
    (numStops numQueries : Nat) : Except Fault (List StopQuery) :=
  if 0 ≤ toInt (sizeMinusOne numStops) then
    .ok (stopQueryLoop lib order (toInt (sizeMinusOne numStops)) numQueries
      (lib.mt19937 42) [])
  else .error .precondition

/-! ## The selection loop computes two running minima -/

theorem selectStep_fst (anchorLabels : List ArrivalLabel)
    (x y label : WalkingParetoLabel) :
    (selectStep anchorLabels (x, y) label).1
      = if label.walkingDistance ≤ x.walkingDistance then label else x := rfl

theorem selectStep_snd (anchorLabels : List ArrivalLabel)
    (x y label : WalkingParetoLabel) :
    (selectStep anchorLabels (x, y) label).2
      = if label.walkingDistance ≤ y.walkingDistance && isAnchorLabel label anchorLabels
        then label else y := rfl

/-- After the loop `bestLabel` is at most the start value and at most every label, and it is
the start value or one of the labels. -/
theorem foldl_selectStep_fst (anchorLabels : List ArrivalLabel) :
    ∀ (fullLabels : List WalkingParetoLabel) (x y : WalkingParetoLabel),
      (fullLabels.foldl (selectStep anchorLabels) (x, y)).1.walkingDistance ≤ x.walkingDistance
      ∧ (∀ l ∈ fullLabels,
          (fullLabels.foldl (selectStep anchorLabels) (x, y)).1.walkingDistance
            ≤ l.walkingDistance)
      ∧ ((fullLabels.foldl (selectStep anchorLabels) (x, y)).1 = x
          ∨ (fullLabels.foldl (selectStep anchorLabels) (x, y)).1 ∈ fullLabels) := by
  intro fullLabels
  induction fullLabels with
  | nil => intro x y; simp
  | cons l ls ih =>
    intro x y
    have hstep : selectStep anchorLabels (x, y) l
        = ((selectStep anchorLabels (x, y) l).1, (selectStep anchorLabels (x, y) l).2) := rfl
    rw [List.foldl_cons, hstep]
    obtain ⟨h1, h2, h3⟩ := ih (selectStep anchorLabels (x, y) l).1
      (selectStep anchorLabels (x, y) l).2
    have hx : (selectStep anchorLabels (x, y) l).1.walkingDistance ≤ x.walkingDistance
        ∧ (selectStep anchorLabels (x, y) l).1.walkingDistance ≤ l.walkingDistance
        ∧ ((selectStep anchorLabels (x, y) l).1 = x
            ∨ (selectStep anchorLabels (x, y) l).1 = l) := by
      rw [selectStep_fst]
      by_cases hc : l.walkingDistance ≤ x.walkingDistance
      · simp [hc]
      · simp [hc]; omega
    refine ⟨le_trans h1 hx.1, ?_, ?_⟩
    · intro l1 hl1
      rcases List.mem_cons.1 hl1 with rfl | hmem
      · exact le_trans h1 hx.2.1
      · exact h2 l1 hmem
    · rcases h3 with h3 | h3
      · rcases hx.2.2 with hx3 | hx3
        · left; rw [h3, hx3]
        · right; rw [h3, hx3]; exact List.mem_cons_self _ _
      · right; exact List.mem_cons_of_mem _ h3

/-- After the loop `bestAnchorLabel` is at most the start value and at most every label
accepted by `isAnchorLabel`, and it is the start value or one of the accepted labels. -/
theorem foldl_selectStep_snd (anchorLabels : List ArrivalLabel) :
    ∀ (fullLabels : List WalkingParetoLabel) (x y : WalkingParetoLabel),
      (fullLabels.foldl (selectStep anchorLabels) (x, y)).2.walkingDistance ≤ y.walkingDistance
      ∧ (∀ l ∈ fullLabels, isAnchorLabel l anchorLabels = true →
          (fullLabels.foldl (selectStep anchorLabels) (x, y)).2.walkingDistance
            ≤ l.walkingDistance)
      ∧ ((fullLabels.foldl (selectStep anchorLabels) (x, y)).2 = y
          ∨ ((fullLabels.foldl (selectStep anchorLabels) (x, y)).2 ∈ fullLabels
              ∧ isAnchorLabel (fullLabels.foldl (selectStep anchorLabels) (x, y)).2
                  anchorLabels = true)) := by
  intro fullLabels
  induction fullLabels with
  | nil => intro x y; simp
  | cons l ls ih =>
    intro x y
    have hstep : selectStep anchorLabels (x, y) l
        = ((selectStep anchorLabels (x, y) l).1, (selectStep anchorLabels (x, y) l).2) := rfl
    rw [List.foldl_cons, hstep]
    obtain ⟨h1, h2, h3⟩ := ih (selectStep anchorLabels (x, y) l).1
      (selectStep anchorLabels (x, y) l).2
    have hy : (selectStep anchorLabels (x, y) l).2.walkingDistance ≤ y.walkingDistance
        ∧ (isAnchorLabel l anchorLabels = true →
            (selectStep anchorLabels (x, y) l).2.walkingDistance ≤ l.walkingDistance)
        ∧ ((selectStep anchorLabels (x, y) l).2 = y
            ∨ ((selectStep anchorLabels (x, y) l).2 = l
                ∧ isAnchorLabel l anchorLabels = true)) := by
      rw [selectStep_snd]
      by_cases hc : l.walkingDistance ≤ y.walkingDistance
      · by_cases ha : isAnchorLabel l anchorLabels = true
        · simp [hc, ha]
        · simp [hc, ha]
      · simp [hc]; intro _; omega
    refine ⟨le_trans h1 hy.1, ?_, ?_⟩
    · intro l1 hl1 ha
      rcases List.mem_cons.1 hl1 with rfl | hmem
      · exact le_trans h1 (hy.2.1 ha)
      · exact h2 l1 hmem ha
    · rcases h3 with h3 | h3
      · rcases hy.2.2 with hy3 | hy3
        · left; rw [h3, hy3]
        · right; rw [h3, hy3.1]; exact ⟨List.mem_cons_self _ _, hy3.2⟩
      · right; exact ⟨List.mem_cons_of_mem _ h3.1, h3.2⟩

/-- The loop keeps `bestLabel.walkingDistance <= bestAnchorLabel.walkingDistance`. -/
theorem foldl_selectStep_le (anchorLabels : List ArrivalLabel) :
    ∀ (fullLabels : List WalkingParetoLabel) (x y : WalkingParetoLabel),
      x.walkingDistance ≤ y.walkingDistance →
      (fullLabels.foldl (selectStep anchorLabels) (x, y)).1.walkingDistance
        ≤ (fullLabels.foldl (selectStep anchorLabels) (x, y)).2.walkingDistance := by
  intro fullLabels
  induction fullLabels with
  | nil => intro x y h; simpa using h
  | cons l ls ih =>
    intro x y h
    have hstep : selectStep anchorLabels (x, y) l
        = ((selectStep anchorLabels (x, y) l).1, (selectStep anchorLabels (x, y) l).2) := rfl
    rw [List.foldl_cons, hstep]
    apply ih
    rw [selectStep_fst, selectStep_snd]
    by_cases hx : l.walkingDistance ≤ x.walkingDistance
    · by_cases hy : (l.walkingDistance ≤ y.walkingDistance
          && isAnchorLabel l anchorLabels) = true
      · simp only [hx, hy, if_true]; exact le_refl _
      · simp only [hx, hy, if_true]; simp; omega
    · by_cases hy : (l.walkingDistance ≤ y.walkingDistance
          && isAnchorLabel l anchorLabels) = true
      · simp only [hx, hy, if_true, if_false]; omega
      · simp only [hx, hy, if_false]; simp; omega

theorem isAnchorLabel_nil (label : WalkingParetoLabel) : isAnchorLabel label [] = false := rfl

/-! ## The cursor walk -/

/-- The inner `while` loop started inside the thresholds returns a cursor: every threshold
it passed is above the sample, and the threshold it stops at (if any) is not. -/
theorem advanceCursor_spec (thresholds : List ℚ) (s : ℚ) :
    ∀ (n j : Nat), thresholds.length - j = n → j < thresholds.length →
      ∃ j1, advanceCursor thresholds s j = .ok j1 ∧ j ≤ j1 ∧ j1 ≤ thresholds.length
        ∧ (∀ i (hi : i < thresholds.length), j ≤ i → i < j1 → s < thresholds[i])
        ∧ (∀ (h1 : j1 < thresholds.length), thresholds[j1] ≤ s) := by
  intro n
  induction n with
  | zero => intro j hn hj; omega
  | succ n ih =>
    intro j hn hj
    rw [advanceCursor]
    by_cases hlt : s < thresholds[j]
    · by_cases hend : j + 1 = thresholds.length
      · refine ⟨j + 1, by simp [hj, hlt, hend], by omega, by omega, ?_, ?_⟩
        · intro i hi hji hij
          have : i = j := by omega
          subst this
          exact hlt
        · intro h1; omega
      · obtain ⟨j1, h1, h2, h3, h4, h5⟩ := ih (j + 1) (by omega) (by omega)
        refine ⟨j1, by simp [hj, hlt, hend, h1], by omega, h3, ?_, h5⟩
        intro i hi hji hij
        by_cases hij1 : i = j
        · subst hij1; exact hlt
        · exact h4 i hi (by omega) hij
    · refine ⟨j, by simp [hj, hlt], le_refl _, by omega, ?_, ?_⟩
      · intro i hi hji hij; omega
      · intro h1; exact not_lt.1 hlt

theorem classify_eq_some_iff (s : ℚ) :
    ∀ (thresholds : List ℚ) (j : Nat),
      classify s thresholds = some j ↔
        (∃ t, thresholds[j]? = some t ∧ t ≤ s)
          ∧ ∀ i u, i < j → thresholds[i]? = some u → s < u := by
  intro thresholds
  induction thresholds with
  | nil => intro j; simp [classify]
  | cons t rest ih =>
    intro j
    by_cases hts : t ≤ s
    · simp only [classify, ge_iff_le, hts, if_true]
      constructor
      · intro h
        have hj : j = 0 := by simpa using h.symm
        subst hj
        exact ⟨⟨t, by simp, hts⟩, by intro i u hi; omega⟩
      · rintro ⟨_, h2⟩
        cases j with
        | zero => rfl
        | succ j =>
          have := h2 0 t (by omega) (by simp)
          exact absurd hts (not_le.2 this)
    · simp only [classify, ge_iff_le, hts, if_false]
      cases j with
      | zero =>
        constructor
        · intro h
          simp at h
        · rintro ⟨⟨u, hu, hus⟩, _⟩
          simp at hu
          subst hu
          exact absurd hus hts
      | succ j =>
        have hmap : Option.map (fun j => j + 1) (classify s rest) = some (j + 1)
            ↔ classify s rest = some j := by
          cases classify s rest <;> simp
        rw [hmap, ih j]
        constructor
        · rintro ⟨⟨u, hu, hus⟩, h2⟩
          refine ⟨⟨u, by simpa using hu, hus⟩, ?_⟩
          intro i v hi hv
          cases i with
          | zero =>
            simp at hv
            subst hv
            exact not_le.1 hts
          | succ i => exact h2 i v (by omega) (by simpa using hv)
        · rintro ⟨⟨u, hu, hus⟩, h2⟩
          refine ⟨⟨u, by simpa using hu, hus⟩, ?_⟩
          intro i v hi hv
          exact h2 (i + 1) v (by omega) (by simpa using hv)

theorem classify_eq_none_iff (s : ℚ) :
    ∀ (thresholds : List ℚ), classify s thresholds = none ↔ ∀ t ∈ thresholds, s < t := by
  intro thresholds
  induction thresholds with
  | nil => simp [classify]
  | cons t rest ih =>
    by_cases hts : t ≤ s
    · simp only [classify, ge_iff_le, hts, if_true]
      constructor
      · intro h; simp at h
      · intro h
        exact absurd hts (not_le.2 (h t (List.mem_cons_self _ _)))
    · simp only [classify, ge_iff_le, hts, if_false, Option.map_eq_none', ih]
      constructor
      · intro h u hu
        rcases List.mem_cons.1 hu with rfl | hmem
        · exact not_le.1 hts
        · exact h u hmem
      · intro h u hu
        exact h u (List.mem_cons_of_mem _ hu)

theorem classify_lt_length (s : ℚ) (thresholds : List ℚ) (j : Nat)
    (h : classify s thresholds = some j) : j < thresholds.length := by
  obtain ⟨⟨t, ht, _⟩, _⟩ := (classify_eq_some_iff s thresholds j).1 h
  by_contra hlt
  rw [List.getElem?_eq_none (Nat.le_of_not_lt hlt)] at ht
  simp at ht

theorem eq_map_range_getD (counts : List Nat) (n : Nat) (h : counts.length = n) :
    counts = (List.range n).map (fun k => counts.getD k 0) := by
  apply List.ext_getElem
  · simp [h]
  · intro i h1 h2
    simp [List.getD_eq_getElem?_getD, List.getElem?_eq_getElem h1]

/-- The invariant of the cursor walk on descending samples: when every remaining sample is
below the thresholds the cursor has passed, the walk ends without a fault and adds to every
bucket the number of remaining samples that `classify` sends to it. -/
theorem binLoop_spec (thresholds : List ℚ) :
    ∀ (rest : List ℚ) (j : Nat) (counts : List Nat),
      counts.length = thresholds.length → j < thresholds.length →
      rest.Sorted (fun a b => a ≥ b) →
      (∀ x ∈ rest, ∀ i (hi : i < thresholds.length), i < j → x < thresholds[i]) →
      binLoop thresholds rest j counts
        = .ok ((List.range thresholds.length).map
            (fun k => counts.getD k 0
              + rest.countP (fun s => classify s thresholds == some k))) := by
  intro rest
  induction rest with
  | nil =>
    intro j counts hlen hj _ _
    simp only [binLoop, List.countP_nil, Nat.add_zero]
    rw [← eq_map_range_getD counts _ hlen]
  | cons s rest ih =>
    intro j counts hlen hj hsorted hbelow
    obtain ⟨j1, hadv, hjj1, hj1len, hpassed, hstop⟩ :=
      advanceCursor_spec thresholds s _ j rfl hj
    have hs_below : ∀ i (hi : i < thresholds.length), i < j1 → s < thresholds[i] := by
      intro i hi hij1
      by_cases hij : i < j
      · exact hbelow s (List.mem_cons_self _ _) i hi hij
      · exact hpassed i hi (by omega) hij1
    have hrest_le : ∀ x ∈ rest, x ≤ s := fun x hx => List.rel_of_sorted_cons hsorted x hx
    have hrest_below : ∀ x ∈ rest, ∀ i (hi : i < thresholds.length), i < j1 →
        x < thresholds[i] :=
      fun x hx i hi hij1 => lt_of_le_of_lt (hrest_le x hx) (hs_below i hi hij1)
    simp only [binLoop, hadv]
    by_cases hend : j1 = thresholds.length
    · -- the cursor left the thresholds: nothing more is counted
      simp only [hend, if_true]
      have hnone : ∀ x ∈ s :: rest, classify x thresholds = none := by
        intro x hx
        rw [classify_eq_none_iff]
        intro t ht
        obtain ⟨i, hi, rfl⟩ := List.getElem_of_mem ht
        rcases List.mem_cons.1 hx with rfl | hmem
        · exact hs_below i hi (by omega)
        · exact hrest_below x hmem i hi (by omega)
      have hzero : ∀ k, (s :: rest).countP (fun x => classify x thresholds == some k) = 0 := by
        intro k
        rw [List.countP_eq_zero]
        intro x hx
        simp [hnone x hx]
      simp only [hzero, Nat.add_zero]
      rw [← eq_map_range_getD counts _ hlen]
    · have hj1 : j1 < thresholds.length := by omega
      have hclass : classify s thresholds = some j1 := by
        rw [classify_eq_some_iff]
        refine ⟨⟨thresholds[j1], List.getElem?_eq_getElem hj1, hstop hj1⟩, ?_⟩
        intro i u hi hu
        obtain ⟨hi1, rfl⟩ := List.getElem?_eq_some.1 hu
        exact hs_below i hi1 hi
      have hget : counts[j1]? = some (counts[j1]) :=
        List.getElem?_eq_getElem (by omega)
      simp only [hend, if_false, hget]
      rw [ih j1 (counts.set j1 (counts[j1] + 1)) (by simpa using hlen) hj1
        (List.Sorted.of_cons hsorted) hrest_below]
      congr 1
      apply List.map_congr_left
      intro k hk
      rw [List.countP_cons, hclass]
      by_cases hkj : k = j1
      · subst hkj
        simp [List.getD_eq_getElem?_getD, List.getElem?_set, hlen, hj1,
          List.getElem?_eq_getElem (show k < counts.length by omega)]
        omega
      · have hne : ¬ (j1 = k) := fun h => hkj h.symm
        simp [List.getD_eq_getElem?_getD, List.getElem?_set, hne]

theorem tally_perm (thresholds : List ℚ) {l1 l2 : List ℚ} (h : l1.Perm l2) :
    tally thresholds l1 = tally thresholds l2 := by
  unfold tally
  apply List.map_congr_left
  intro k _
  exact h.countP_eq _

/-- The cursor walk on the sorted samples returns the tally of the per-sample
classification, for every non-empty list of thresholds. -/
theorem savingsCounts_eq_tally (thresholds : List ℚ) (samples : List ℚ)
    (hne : thresholds ≠ []) :
    savingsCounts thresholds samples = .ok (tally thresholds samples) := by
  unfold savingsCounts
  rw [binLoop_spec thresholds (sortDescending samples) 0 _ (by simp)
    (List.length_pos.2 hne) (List.sorted_insertionSort _ _)
    (by intro x _ i _ hi; omega)]
  rw [← tally_perm thresholds (List.perm_insertionSort (fun a b => a ≥ b) samples)]
  unfold tally sortDescending
  congr 1
  apply List.map_congr_left
  intro k hk
  have hk1 : k < thresholds.length := List.mem_range.1 hk
  simp [List.getD_eq_getElem?_getD, List.getElem?_replicate, hk1]

/-! ## What the tally holds when the thresholds are descending -/

/-- On strictly descending thresholds a sample is classified `j` exactly when it is at least
`thresholds[j]` and, for `j > 0`, below `thresholds[j-1]`. -/
theorem classify_eq_some_of_sorted (thresholds : List ℚ)
    (hdesc : thresholds.Sorted (fun a b => a > b)) (s : ℚ) (j : Nat)
    (hj : j < thresholds.length) :
    classify s thresholds = some j ↔
      thresholds[j] ≤ s ∧ (0 < j → s < thresholds[j - 1]) := by
  rw [classify_eq_some_iff]
  have hpair := List.pairwise_iff_getElem.1 hdesc
  constructor
  · rintro ⟨⟨t, ht, hts⟩, hbelow⟩
    obtain ⟨_, rfl⟩ := List.getElem?_eq_some.1 ht
    refine ⟨hts, ?_⟩
    intro hpos
    exact hbelow (j - 1) _ (by omega) (List.getElem?_eq_getElem (by omega))
  · rintro ⟨hts, hprev⟩
    refine ⟨⟨thresholds[j], List.getElem?_eq_getElem hj, hts⟩, ?_⟩
    intro i u hi hu
    obtain ⟨hi1, rfl⟩ := List.getElem?_eq_some.1 hu
    have h1 : s < thresholds[j - 1] := hprev (by omega)
    by_cases hij : i = j - 1
    · subst hij; exact h1
    · have := hpair i (j - 1) hi1 (by omega) (by omega)
      exact lt_trans h1 this

theorem getLast_le_of_sorted (thresholds : List ℚ)
    (hdesc : thresholds.Sorted (fun a b => a > b)) (hne : thresholds ≠ []) :
    ∀ t ∈ thresholds, thresholds.getLast hne ≤ t := by
  intro t ht
  obtain ⟨i, hi, rfl⟩ := List.getElem_of_mem ht
  rw [List.getLast_eq_getElem]
  have hpair := List.pairwise_iff_getElem.1 hdesc
  by_cases hlast : i = thresholds.length - 1
  · subst hlast; exact le_refl _
  · exact le_of_lt (hpair i (thresholds.length - 1) hi (by omega) (by omega))

/-- On strictly descending thresholds a sample is classified somewhere exactly when it is
at least the last threshold. -/
theorem classify_isSome_of_sorted (thresholds : List ℚ)
    (hdesc : thresholds.Sorted (fun a b => a > b)) (hne : thresholds ≠ []) (s : ℚ) :
    (classify s thresholds).isSome = true ↔ thresholds.getLast hne ≤ s := by
  rw [Option.isSome_iff_ne_none, Ne, classify_eq_none_iff]
  constructor
  · intro h
    push_neg at h
    obtain ⟨t, ht, hts⟩ := h
    exact le_trans (getLast_le_of_sorted thresholds hdesc hne t ht) hts
  · intro h hall
    exact absurd h (not_le.2 (hall _ (List.getLast_mem hne)))

theorem sum_indicator_range (a : Option Nat) :
    ∀ n : Nat, ((List.range n).map (fun k => if (a == some k) = true then 1 else 0)).sum
      = if (∃ k, k < n ∧ a = some k) then 1 else 0 := by
  intro n
  induction n with
  | zero => simp
  | succ n ih =>
    rw [List.range_succ, List.map_append, List.sum_append, ih]
    by_cases h1 : ∃ k, k < n ∧ a = some k
    · obtain ⟨k, hk, rfl⟩ := h1
      have h2 : ∃ k1, k1 < n + 1 ∧ some k = some k1 := ⟨k, by omega, rfl⟩
      have h3 : k ≠ n := by omega
      have h4 : k < n + 1 := by omega
      simp [h3, hk, h4]
    · by_cases h2 : a = some n
      · subst h2
        simp
      · have h3 : ¬ ∃ k, k < n + 1 ∧ a = some k := by
          rintro ⟨k, hk, hak⟩
          by_cases hkn : k = n
          · subst hkn; exact h2 hak
          · exact h1 ⟨k, by omega, hak⟩
        simp [h1, h2, h3]

/-- The buckets of the tally add up to the number of samples that are classified at all. -/
theorem tally_sum (thresholds : List ℚ) :
    ∀ samples : List ℚ, (tally thresholds samples).sum
      = samples.countP (fun s => (classify s thresholds).isSome) := by
  intro samples
  induction samples with
  | nil => simp [tally]
  | cons s rest ih =>
    unfold tally at ih ⊢
    simp only [List.countP_cons]
    rw [List.sum_map_add, ih, sum_indicator_range]
    congr 1
    by_cases hsome : (classify s thresholds).isSome = true
    · obtain ⟨k, hk⟩ := Option.isSome_iff_exists.1 hsome
      have : ∃ k, k < thresholds.length ∧ classify s thresholds = some k :=
        ⟨k, classify_lt_length s thresholds k hk, hk⟩
      simp [this, hsome]
    · have : ¬ ∃ k, k < thresholds.length ∧ classify s thresholds = some k := by
        rintro ⟨k, _, hk⟩
        exact hsome (by simp [hk])
      simp [this, hsome]

theorem tally_length (thresholds samples : List ℚ) :
    (tally thresholds samples).length = thresholds.length := by
  simp [tally]

theorem tally_getElem? (thresholds samples : List ℚ) (j : Nat) (hj : j < thresholds.length) :
    (tally thresholds samples)[j]?
      = some (samples.countP (fun s => classify s thresholds == some j)) := by
  simp [tally, List.getElem?_map, List.getElem?_range hj]

theorem savingsRatios_eq_tally (thresholds : List ℚ) (samples : List ℚ)
    (hne : thresholds ≠ []) :
    savingsRatios thresholds samples
      = .ok ((tally thresholds samples).map (fun c => ratioOf c samples.length)) := by
  simp only [savingsRatios, savingsCounts_eq_tally thresholds samples hne]

/-! ## The claims about the per-query procedure -/

/-- Claim C1, as stated, fails: with labels default-constructed with `walkingDistance = 0`,
the labels `(1, 1, 10)` and `(2, 2, 4)` and the anchor label `(1, 1)`, exactly the first label
is an anchor label, so `a = 10` and `b = 4`; the code returns the sample `0`, not
`(10 - 4)/10`. -/
theorem savingsSample_default_zero_counterexample :
    isAnchorLabel ⟨1, 1, 10⟩ [⟨1, 1⟩] = true
    ∧ isAnchorLabel ⟨2, 2, 4⟩ [⟨1, 1⟩] = false
    ∧ savingsSample ⟨0, 0, 0⟩ [⟨1, 1, 10⟩, ⟨2, 2, 4⟩] [⟨1, 1⟩] = 0
    ∧ savingsSample ⟨0, 0, 0⟩ [⟨1, 1, 10⟩, ⟨2, 2, 4⟩] [⟨1, 1⟩] ≠ (10 - 4) / 10 := by
  refine ⟨by simp [isAnchorLabel], by simp [isAnchorLabel], ?_, ?_⟩ <;>
    norm_num [savingsSample, selectBest, selectStep, isAnchorLabel, savingsOf]

/-- Claim C1, amended: when at least one label of `fullLabels` is an anchor label, `a` is the
minimal walking distance among the anchor labels of `fullLabels`, `b` the minimal walking
distance among all of `fullLabels`, `a > 0`, and the default-constructed label has a walking
distance of at least `a`, the savings sample equals `(a - b)/a`. -/
theorem savingsSample_eq_of_default_ge (dflt : WalkingParetoLabel)
    (fullLabels : List WalkingParetoLabel) (anchorLabels : List ArrivalLabel) (a b : Int)
    (ha : ∃ l ∈ fullLabels, isAnchorLabel l anchorLabels = true ∧ l.walkingDistance = a)
    (hamin : ∀ l ∈ fullLabels, isAnchorLabel l anchorLabels = true → a ≤ l.walkingDistance)
    (hb : ∃ l ∈ fullLabels, l.walkingDistance = b)
    (hbmin : ∀ l ∈ fullLabels, b ≤ l.walkingDistance)
    (hpos : 0 < a) (hdflt : a ≤ dflt.walkingDistance) :
    savingsSample dflt fullLabels anchorLabels = ((a - b : Int) : ℚ) / (a : ℚ) := by
  obtain ⟨f1, f2, f3⟩ := foldl_selectStep_fst anchorLabels fullLabels dflt dflt
  obtain ⟨s1, s2, s3⟩ := foldl_selectStep_snd anchorLabels fullLabels dflt dflt
  obtain ⟨la, hla, hla1, hla2⟩ := ha
  obtain ⟨lb, hlb, hlb1⟩ := hb
  have hba : b ≤ a := hla2 ▸ hbmin la hla
  have hA : (selectBest dflt fullLabels anchorLabels).2.walkingDistance = a := by
    unfold selectBest
    apply le_antisymm
    · exact hla2 ▸ s2 la hla hla1
    · rcases s3 with h | ⟨h1, h2⟩
      · rw [h]; exact hdflt
      · exact hamin _ h1 h2
  have hB : (selectBest dflt fullLabels anchorLabels).1.walkingDistance = b := by
    unfold selectBest
    apply le_antisymm
    · exact hlb1 ▸ f2 lb hlb
    · rcases f3 with h | h
      · rw [h]; omega
      · exact hbmin _ h
  have hne : a ≠ 0 := by omega
  simp only [savingsSample, savingsOf, hA, hB, hne, if_false]

/-- Claim C1, amended, at a concrete input: with a default walking distance of `2147483647`,
one anchor label of distance `10` and a global minimum of `4` give the sample `6/10`. -/
theorem savingsSample_eq_of_default_ge_witness :
    savingsSample ⟨0, 0, 2147483647⟩ [⟨1, 1, 10⟩, ⟨2, 2, 4⟩] [⟨1, 1⟩]
      = (((10 : Int) - 4 : Int) : ℚ) / ((10 : Int) : ℚ) :=
  savingsSample_eq_of_default_ge ⟨0, 0, 2147483647⟩ [⟨1, 1, 10⟩, ⟨2, 2, 4⟩] [⟨1, 1⟩] 10 4
    ⟨⟨1, 1, 10⟩, by simp, by simp [isAnchorLabel], rfl⟩
    (by simp [isAnchorLabel])
    ⟨⟨2, 2, 4⟩, by simp, rfl⟩
    (by simp)
    (by decide) (by decide)

/-- Claim C2: when the default-constructed label and every label of `fullLabels` have a
non-negative walking distance, the savings sample `s` satisfies `0 <= s <= 1`, for every
`fullLabels` and every `anchorLabels`. -/
theorem savingsSample_mem_unit_interval (dflt : WalkingParetoLabel)
    (fullLabels : List WalkingParetoLabel) (anchorLabels : List ArrivalLabel)
    (hdflt : 0 ≤ dflt.walkingDistance)
    (hfull : ∀ l ∈ fullLabels, 0 ≤ l.walkingDistance) :
    0 ≤ savingsSample dflt fullLabels anchorLabels
      ∧ savingsSample dflt fullLabels anchorLabels ≤ 1 := by
  obtain ⟨_, _, f3⟩ := foldl_selectStep_fst anchorLabels fullLabels dflt dflt
  have hle := foldl_selectStep_le anchorLabels fullLabels dflt dflt (le_refl _)
  have hB : 0 ≤ (selectBest dflt fullLabels anchorLabels).1.walkingDistance := by
    unfold selectBest
    rcases f3 with h | h
    · rw [h]; exact hdflt
    · exact hfull _ h
  have hAB : (selectBest dflt fullLabels anchorLabels).1.walkingDistance
      ≤ (selectBest dflt fullLabels anchorLabels).2.walkingDistance := hle
  unfold savingsSample savingsOf
  by_cases hz : (selectBest dflt fullLabels anchorLabels).2.walkingDistance = 0
  · simp [hz]
  · simp only [hz, if_false]
    have hApos : (0 : ℚ) < ((selectBest dflt fullLabels anchorLabels).2.walkingDistance : ℚ) := by
      exact_mod_cast (show 0 < (selectBest dflt fullLabels anchorLabels).2.walkingDistance by
        omega)
    constructor
    · apply div_nonneg
      · exact_mod_cast (show 0 ≤ (selectBest dflt fullLabels anchorLabels).2.walkingDistance
          - (selectBest dflt fullLabels anchorLabels).1.walkingDistance by omega)
      · exact le_of_lt hApos
    · rw [div_le_one hApos]
      exact_mod_cast (show (selectBest dflt fullLabels anchorLabels).2.walkingDistance
          - (selectBest dflt fullLabels anchorLabels).1.walkingDistance
          ≤ (selectBest dflt fullLabels anchorLabels).2.walkingDistance by omega)

/-- Claim C2 at a concrete input: default distance `7`, labels of distances `10` and `4`. -/
theorem savingsSample_mem_unit_interval_witness :
    0 ≤ savingsSample ⟨0, 0, 7⟩ [⟨1, 1, 10⟩, ⟨2, 2, 4⟩] [⟨2, 2⟩]
      ∧ savingsSample ⟨0, 0, 7⟩ [⟨1, 1, 10⟩, ⟨2, 2, 4⟩] [⟨2, 2⟩] ≤ 1 :=
  savingsSample_mem_unit_interval ⟨0, 0, 7⟩ [⟨1, 1, 10⟩, ⟨2, 2, 4⟩] [⟨2, 2⟩]
    (by decide) (by simp)

/-- Claim C3: with labels default-constructed with `walkingDistance = 0` and an empty
`anchorLabels`, `isAnchorLabel` is false for every label, `bestAnchorLabel` is still the
default-constructed label after the loop, and the savings sample is exactly `0`, for every
`fullLabels`. -/
theorem savingsSample_empty_anchorLabels (dflt : WalkingParetoLabel)
    (fullLabels : List WalkingParetoLabel) (hdflt : dflt.walkingDistance = 0) :
    (∀ label, isAnchorLabel label [] = false)
      ∧ (selectBest dflt fullLabels []).2 = dflt
      ∧ savingsSample dflt fullLabels [] = 0 := by
  obtain ⟨_, _, s3⟩ := foldl_selectStep_snd [] fullLabels dflt dflt
  have hkeep : (selectBest dflt fullLabels []).2 = dflt := by
    unfold selectBest
    rcases s3 with h | ⟨_, h⟩
    · exact h
    · rw [isAnchorLabel_nil] at h
      exact absurd h (by decide)
  refine ⟨isAnchorLabel_nil, hkeep, ?_⟩
  simp [savingsSample, savingsOf, hkeep, hdflt]

/-- Claim C3 at a concrete input: two labels of positive distance, no anchor label. -/
theorem savingsSample_empty_anchorLabels_witness :
    (⟨0, 0, 0⟩ : WalkingParetoLabel).walkingDistance = 0
      ∧ savingsSample ⟨0, 0, 0⟩ [⟨1, 1, 10⟩, ⟨2, 2, 4⟩] [] = 0 :=
  ⟨rfl, (savingsSample_empty_anchorLabels ⟨0, 0, 0⟩ [⟨1, 1, 10⟩, ⟨2, 2, 4⟩] rfl).2.2⟩

/-- Claim C9: after the selection loop `bestLabel.walkingDistance` is at most
`bestAnchorLabel.walkingDistance`, so the numerator of the savings sample is not negative,
for every default-constructed label, every `fullLabels` and every `anchorLabels`. -/
theorem selectBest_walkingDistance_le (dflt : WalkingParetoLabel)
    (fullLabels : List WalkingParetoLabel) (anchorLabels : List ArrivalLabel) :
    (selectBest dflt fullLabels anchorLabels).1.walkingDistance
        ≤ (selectBest dflt fullLabels anchorLabels).2.walkingDistance
      ∧ 0 ≤ (selectBest dflt fullLabels anchorLabels).2.walkingDistance
            - (selectBest dflt fullLabels anchorLabels).1.walkingDistance := by
  have hle := foldl_selectStep_le anchorLabels fullLabels dflt dflt (le_refl _)
  exact ⟨hle, by unfold selectBest; omega⟩

/-! ## The claims about the batch reduction -/

/-- Claim C4: for every list of samples and every strictly descending list of thresholds, the
batch reduction ends with one count per threshold; bucket `0` holds the number of samples
`s` with `s >= thresholds[0]`, and each bucket `j > 0` holds the number of samples `s` with
`thresholds[j] <= s < thresholds[j-1]`. -/
theorem savingsCounts_bucket (samples thresholds : List ℚ)
    (hdesc : thresholds.Sorted (fun a b => a > b)) (j : Nat) (hj : j < thresholds.length) :
    ∃ counts, savingsCounts thresholds samples = .ok counts
      ∧ counts.length = thresholds.length
      ∧ (j = 0 → counts[j]? = some (samples.countP (fun s => s ≥ thresholds[j])))
      ∧ (0 < j → counts[j]? =
          some (samples.countP (fun s => thresholds[j] ≤ s ∧ s < thresholds[j - 1]))) := by
  have hne : thresholds ≠ [] := List.length_pos.1 (by omega)
  refine ⟨tally thresholds samples, savingsCounts_eq_tally thresholds samples hne,
    tally_length thresholds samples, ?_, ?_⟩
  · intro h0
    rw [tally_getElem? thresholds samples j hj]
    congr 1
    apply List.countP_congr
    intro s _
    simp only [beq_iff_eq, classify_eq_some_of_sorted thresholds hdesc s j hj,
      decide_eq_true_eq, ge_iff_le]
    constructor
    · intro h; exact h.1
    · intro h; exact ⟨h, by omega⟩
  · intro hpos
    rw [tally_getElem? thresholds samples j hj]
    congr 1
    apply List.countP_congr
    intro s _
    simp only [beq_iff_eq, classify_eq_some_of_sorted thresholds hdesc s j hj,
      decide_eq_true_eq]
    constructor
    · intro h; exact ⟨h.1, h.2 hpos⟩
    · intro h; exact ⟨h.1, fun _ => h.2⟩

/-- Claim C4 at a concrete input: of the samples `0.9, 0.6, 0.1`, bucket `1` of the
thresholds `0.75, 0.5, 0.25` holds the one sample in `[0.5, 0.75)`. -/
theorem savingsCounts_bucket_witness :
    ([3 / 4, 1 / 2, 1 / 4] : List ℚ).Sorted (fun a b => a > b)
      ∧ ∃ counts, savingsCounts [3 / 4, 1 / 2, 1 / 4] [9 / 10, 6 / 10, 1 / 10] = .ok counts
          ∧ counts[1]? = some 1 := by
  have hdesc : ([3 / 4, 1 / 2, 1 / 4] : List ℚ).Sorted (fun a b => a > b) := by
    norm_num [List.Sorted]
  obtain ⟨counts, h1, _, _, h4⟩ :=
    savingsCounts_bucket [9 / 10, 6 / 10, 1 / 10] [3 / 4, 1 / 2, 1 / 4] hdesc 1 (by simp)
  refine ⟨hdesc, counts, h1, ?_⟩
  rw [h4 (by decide)]
  norm_num [List.countP_cons]

/-- Claim C5: for every list of samples and every strictly descending non-empty list of
thresholds, the bucket counts add up to the number of samples `s` with `s >=` the last
threshold: the samples below the last threshold are counted in no bucket. -/
theorem savingsCounts_sum (samples thresholds : List ℚ) (hne : thresholds ≠ [])
    (hdesc : thresholds.Sorted (fun a b => a > b)) :
    ∃ counts, savingsCounts thresholds samples = .ok counts
      ∧ counts.sum = samples.countP (fun s => s ≥ thresholds.getLast hne) := by
  refine ⟨tally thresholds samples, savingsCounts_eq_tally thresholds samples hne, ?_⟩
  rw [tally_sum]
  apply List.countP_congr
  intro s _
  simp only [classify_isSome_of_sorted thresholds hdesc hne s, decide_eq_true_eq, ge_iff_le]

/-- Claim C5 at the input of the spec: the samples `0.9, 0.6, 0.1` with the thresholds
`0.75, 0.5, 0.25` give the counts `[1, 1, 0]`, and the total is `2`, not `3`. -/
theorem savingsCounts_sum_witness :
    ([3 / 4, 1 / 2, 1 / 4] : List ℚ).Sorted (fun a b => a > b)
      ∧ ∃ counts, savingsCounts [3 / 4, 1 / 2, 1 / 4] [9 / 10, 6 / 10, 1 / 10] = .ok counts
          ∧ counts = [1, 1, 0] ∧ counts.sum = 2 := by
  have hdesc : ([3 / 4, 1 / 2, 1 / 4] : List ℚ).Sorted (fun a b => a > b) := by
    norm_num [List.Sorted]
  obtain ⟨counts, h1, h2⟩ := savingsCounts_sum [9 / 10, 6 / 10, 1 / 10]
    [3 / 4, 1 / 2, 1 / 4] (by simp) hdesc
  have h3 : savingsCounts [3 / 4, 1 / 2, 1 / 4] [9 / 10, 6 / 10, 1 / 10] = .ok [1, 1, 0] := by
    rw [savingsCounts_eq_tally _ _ (by simp)]
    norm_num [tally, classify, List.countP_cons, List.range_succ]
  refine ⟨hdesc, counts, h1, ?_, ?_⟩
  · rw [h1] at h3
    exact Except.ok.inj h3
  · rw [h2]
    norm_num [List.countP_cons]

/-- Claim C8: for every list of samples and every non-empty list of thresholds (descending
or not), sorting the samples descending and walking them with the single cursor returns the
counts obtained by classifying every sample on its own and tallying the indices. The walk
reads `thresholds[0]` for the first sample, so the thresholds are not empty. -/
theorem savingsCounts_refines_classify (samples thresholds : List ℚ)
    (hne : thresholds ≠ []) :
    savingsCounts thresholds samples = .ok (tally thresholds samples) :=
  savingsCounts_eq_tally thresholds samples hne

/-- Claim C8 at a concrete input: the samples `0.1, 0.9, 0.6` in this order and the
thresholds `0.75, 0.5, 0.25`. -/
theorem savingsCounts_refines_classify_witness :
    savingsCounts [3 / 4, 1 / 2, 1 / 4] [1 / 10, 9 / 10, 6 / 10] = .ok [1, 1, 0] := by
  rw [savingsCounts_refines_classify [1 / 10, 9 / 10, 6 / 10] [3 / 4, 1 / 2, 1 / 4] (by simp)]
  norm_num [tally, classify, List.countP_cons, List.range_succ]

/-- Claim C6, as stated, fails: the five samples `0.8, 0, 0, 0.5, 0` of the scenario with the
thresholds `0.75, 0.5, 0.25` do not give the bucket counts `[1, 2, 0]`, and the ratios written
are not `[0.2, 0.4, 0.0]`. -/
theorem scenario_counts_counterexample :
    savingsCounts [3 / 4, 1 / 2, 1 / 4] [4 / 5, 0, 0, 1 / 2, 0] ≠ .ok [1, 2, 0]
      ∧ savingsRatios [3 / 4, 1 / 2, 1 / 4] [4 / 5, 0, 0, 1 / 2, 0]
          ≠ .ok [.value (1 / 5), .value (2 / 5), .value 0] := by
  constructor
  · rw [savingsCounts_eq_tally _ _ (by simp)]
    norm_num [tally, classify, List.countP_cons, List.range_succ]
  · rw [savingsRatios_eq_tally _ _ (by simp)]
    norm_num [tally, classify, List.countP_cons, List.range_succ, ratioOf]

/-- Claim C6, amended: the `(bestLabel, bestAnchorLabel)` distance pairs `(2,10)`, `(0,0)`,
`(5,5)`, `(3,6)`, `(8,8)` give the samples `[0.8, 0, 0, 0.5, 0]`, and the batch reduction of
these five samples with the thresholds `[0.75, 0.5, 0.25]` gives the bucket counts `[1, 1, 0]`
and the ratios `[0.2, 0.2, 0.0]`. -/
theorem scenario_counts :
    ([(2, 10), (0, 0), (5, 5), (3, 6), (8, 8)] : List (Int × Int)).map
        (fun p => savingsOf ⟨0, 0, p.1⟩ ⟨0, 0, p.2⟩) = [4 / 5, 0, 0, 1 / 2, 0]
      ∧ savingsCounts [3 / 4, 1 / 2, 1 / 4] [4 / 5, 0, 0, 1 / 2, 0] = .ok [1, 1, 0]
      ∧ savingsRatios [3 / 4, 1 / 2, 1 / 4] [4 / 5, 0, 0, 1 / 2, 0]
          = .ok [.value (1 / 5), .value (1 / 5), .value 0] := by
  refine ⟨?_, ?_, ?_⟩
  · norm_num [savingsOf]
  · rw [savingsCounts_eq_tally _ _ (by simp)]
    norm_num [tally, classify, List.countP_cons, List.range_succ]
  · rw [savingsRatios_eq_tally _ _ (by simp)]
    norm_num [tally, classify, List.countP_cons, List.range_succ, ratioOf]

/-- Claim C7, as stated, fails: for the samples `0.9, 0.6, 0.1` and the thresholds
`0.75, 0.5, 0.25` the ratio written in the column of `0.5` is `1/3`, while the fraction of
samples that are at least `0.5` is `2/3`. -/
theorem savingsRatios_counterexample :
    savingsRatios [3 / 4, 1 / 2, 1 / 4] [9 / 10, 6 / 10, 1 / 10]
        = .ok [.value (1 / 3), .value (1 / 3), .value 0]
      ∧ ((([9 / 10, 6 / 10, 1 / 10] : List ℚ).countP (fun s => s ≥ 1 / 2) : Nat) : ℚ)
          / ((([9 / 10, 6 / 10, 1 / 10] : List ℚ).length : Nat) : ℚ) = 2 / 3 := by
  constructor
  · rw [savingsRatios_eq_tally _ _ (by simp)]
    norm_num [tally, classify, List.countP_cons, List.range_succ, ratioOf]
  · norm_num [List.countP_cons]

/-- Claim C7, amended: for every configuration and every strictly descending list of
thresholds, the ratio written in the column of the first threshold is the number of samples
`s` with `s >= thresholds[0]` divided by the number of samples, and the ratio written in the
column of a later threshold `thresholds[j]` is the number of samples `s` with
`thresholds[j] <= s < thresholds[j-1]` divided by the number of samples. -/
theorem configurationRatios_bucket (dflt : WalkingParetoLabel) (engine : Engine)
    (thresholds : List ℚ) (queries : List VertexQuery) (arrivalSlack tripSlack : ℚ)
    (hdesc : thresholds.Sorted (fun a b => a > b)) (j : Nat) (hj : j < thresholds.length) :
    ∃ ratios, configurationRatios dflt engine thresholds queries arrivalSlack tripSlack
        = .ok ratios
      ∧ ratios.length = thresholds.length
      ∧ (j = 0 → ratios[j]? = some (ratioOf
          ((transferTimeSavings dflt engine queries arrivalSlack tripSlack).countP
            (fun s => s ≥ thresholds[j]))
          (transferTimeSavings dflt engine queries arrivalSlack tripSlack).length))
      ∧ (0 < j → ratios[j]? = some (ratioOf
          ((transferTimeSavings dflt engine queries arrivalSlack tripSlack).countP
            (fun s => thresholds[j] ≤ s ∧ s < thresholds[j - 1]))
          (transferTimeSavings dflt engine queries arrivalSlack tripSlack).length)) := by
  have hne : thresholds ≠ [] := List.length_pos.1 (by omega)
  have hget := tally_getElem? thresholds
    (transferTimeSavings dflt engine queries arrivalSlack tripSlack) j hj
  refine ⟨_, savingsRatios_eq_tally thresholds _ hne, by simp [tally_length], ?_, ?_⟩
  · intro h0
    rw [List.getElem?_map, hget, Option.map_some']
    congr 2
    apply List.countP_congr
    intro s _
    simp only [beq_iff_eq, classify_eq_some_of_sorted thresholds hdesc s j hj,
      decide_eq_true_eq, ge_iff_le]
    constructor
    · intro h; exact h.1
    · intro h; exact ⟨h, by omega⟩
  · intro hpos
    rw [List.getElem?_map, hget, Option.map_some']
    congr 2
    apply List.countP_congr
    intro s _
    simp only [beq_iff_eq, classify_eq_some_of_sorted thresholds hdesc s j hj,
      decide_eq_true_eq]
    constructor
    · intro h; exact ⟨h.1, h.2 hpos⟩
    · intro h; exact ⟨h.1, fun _ => h.2⟩

/-- Claim C7, amended, at a concrete input: two queries whose labels `(1, 1, 10)` and
`(2, 2, 1)` with the anchor label `(1, 1)` both give the sample `0.9`; the column of the first
threshold `0.75` holds `2/2`. -/
theorem configurationRatios_bucket_witness :
    ComputeTransferTimeSavings.thresholds.Sorted (fun a b => a > b)
      ∧ ∃ ratios,
          configurationRatios ⟨0, 0, 2147483647⟩
            ⟨fun _ _ _ => [⟨1, 1, 10⟩, ⟨2, 2, 1⟩], fun _ _ _ => [⟨1, 1⟩]⟩
            ComputeTransferTimeSavings.thresholds [⟨0, 1, 0⟩, ⟨1, 0, 60⟩] 1 1 = .ok ratios
          ∧ ratios[0]? = some (.value 1) := by
  have hdesc : ComputeTransferTimeSavings.thresholds.Sorted (fun a b => a > b) := by
    norm_num [ComputeTransferTimeSavings.thresholds, List.Sorted]
  obtain ⟨ratios, h1, _, h3, _⟩ :=
    configurationRatios_bucket ⟨0, 0, 2147483647⟩
      ⟨fun _ _ _ => [⟨1, 1, 10⟩, ⟨2, 2, 1⟩], fun _ _ _ => [⟨1, 1⟩]⟩
      ComputeTransferTimeSavings.thresholds [⟨0, 1, 0⟩, ⟨1, 0, 60⟩] 1 1 hdesc 0
      (by simp [ComputeTransferTimeSavings.thresholds])
  refine ⟨hdesc, ratios, h1, ?_⟩
  rw [h3 rfl]
  norm_num [transferTimeSavings, savingsSample, selectBest, selectStep, isAnchorLabel,
    savingsOf, ComputeTransferTimeSavings.thresholds, List.countP_cons, ratioOf]

/-- Claim C10, as stated, fails: with no query the configuration does not end in an error;
the three bucket counts `0` are divided by the sample count `0` and the three resulting
ratios, all `NaN`, are written. -/
theorem configurationRatios_no_queries_counterexample :
    configurationRatios ⟨0, 0, 0⟩ ⟨fun _ _ _ => [], fun _ _ _ => []⟩
        ComputeTransferTimeSavings.thresholds [] 1 1 = .ok [.nan, .nan, .nan]
      ∧ ∀ e, configurationRatios ⟨0, 0, 0⟩ ⟨fun _ _ _ => [], fun _ _ _ => []⟩
        ComputeTransferTimeSavings.thresholds [] 1 1 ≠ .error e := by
  have h : configurationRatios ⟨0, 0, 0⟩ ⟨fun _ _ _ => [], fun _ _ _ => []⟩
      ComputeTransferTimeSavings.thresholds [] 1 1 = .ok [.nan, .nan, .nan] := by
    simp [configurationRatios, transferTimeSavings, savingsRatios, savingsCounts,
      sortDescending, binLoop, ratioOf, ComputeTransferTimeSavings.thresholds]
  refine ⟨h, ?_⟩
  intro e he
  rw [h] at he
  cases he

/-- Claim C10, amended: when the query count is 0 the savings analysis does not fail; for
every configuration and every list of thresholds all bucket counts are `0`, each is divided
by the sample count `0`, and one `NaN` ratio per threshold is written. -/
theorem configurationRatios_no_queries (dflt : WalkingParetoLabel) (engine : Engine)
    (thresholds : List ℚ) (arrivalSlack tripSlack : ℚ) :
    savingsCounts thresholds (transferTimeSavings dflt engine [] arrivalSlack tripSlack)
        = .ok (List.replicate thresholds.length 0)
      ∧ configurationRatios dflt engine thresholds [] arrivalSlack tripSlack
        = .ok (List.replicate thresholds.length Ratio.nan) := by
  constructor
  · simp [transferTimeSavings, savingsCounts, sortDescending, binLoop]
  · simp [configurationRatios, transferTimeSavings, savingsRatios, savingsCounts,
      sortDescending, binLoop, ratioOf]

/-! ## Further claims about the per-query procedure -/

theorem isAnchorLabel_eq_true_iff (label : WalkingParetoLabel) :
    ∀ anchorLabels : List ArrivalLabel,
      isAnchorLabel label anchorLabels = true ↔
        ∃ a ∈ anchorLabels, a.arrivalTime = label.arrivalTime
          ∧ a.numberOfTrips = label.numberOfTrips := by
  intro anchorLabels
  induction anchorLabels with
  | nil => simp [isAnchorLabel]
  | cons a rest ih =>
    by_cases h1 : label.arrivalTime = a.arrivalTime
    · by_cases h2 : label.numberOfTrips = a.numberOfTrips
      · simp [isAnchorLabel, h1, h2]
      · have h2n : ¬ a.numberOfTrips = label.numberOfTrips := fun h => h2 h.symm
        simp [isAnchorLabel, h1, h2, h2n, ih]
    · have h1n : ¬ a.arrivalTime = label.arrivalTime := fun h => h1 h.symm
      simp [isAnchorLabel, h1, h1n, ih]

theorem isAnchorLabel_congr (l1 l2 : WalkingParetoLabel)
    (ht : l1.arrivalTime = l2.arrivalTime) (hn : l1.numberOfTrips = l2.numberOfTrips) :
    ∀ anchorLabels : List ArrivalLabel,
      isAnchorLabel l1 anchorLabels = isAnchorLabel l2 anchorLabels := by
  intro anchorLabels
  induction anchorLabels with
  | nil => rfl
  | cons a rest ih => simp only [isAnchorLabel, ht, hn, ih]

/-- Claim C13: `isAnchorLabel(label, anchorLabels)` is true if and only if some element of
`anchorLabels` has the arrival time and the number of trips of `label`; replacing the walking
distance of `label` by any other value does not change the result. -/
theorem isAnchorLabel_iff (label : WalkingParetoLabel) (anchorLabels : List ArrivalLabel) :
    (isAnchorLabel label anchorLabels = true ↔
        ∃ a ∈ anchorLabels, a.arrivalTime = label.arrivalTime
          ∧ a.numberOfTrips = label.numberOfTrips)
      ∧ ∀ d : Int,
          isAnchorLabel ⟨label.arrivalTime, label.numberOfTrips, d⟩ anchorLabels
            = isAnchorLabel label anchorLabels :=
  ⟨isAnchorLabel_eq_true_iff label anchorLabels,
    fun d => isAnchorLabel_congr ⟨label.arrivalTime, label.numberOfTrips, d⟩ label rfl rfl
      anchorLabels⟩

/-- Claim C16: with labels default-constructed with `walkingDistance = 0` and every label of
`fullLabels` of non-negative walking distance, `bestAnchorLabel.walkingDistance` is `0`
after the selection loop and the savings sample is `0`, for every `fullLabels` and every
`anchorLabels`. -/
theorem savingsSample_default_zero (dflt : WalkingParetoLabel)
    (fullLabels : List WalkingParetoLabel) (anchorLabels : List ArrivalLabel)
    (hdflt : dflt.walkingDistance = 0)
    (hfull : ∀ l ∈ fullLabels, 0 ≤ l.walkingDistance) :
    (selectBest dflt fullLabels anchorLabels).2.walkingDistance = 0
      ∧ savingsSample dflt fullLabels anchorLabels = 0 := by
  obtain ⟨s1, _, s3⟩ := foldl_selectStep_snd anchorLabels fullLabels dflt dflt
  have hzero : (selectBest dflt fullLabels anchorLabels).2.walkingDistance = 0 := by
    unfold selectBest
    apply le_antisymm
    · rw [← hdflt]; exact s1
    · rcases s3 with h | ⟨h, _⟩
      · rw [h, hdflt]
      · exact hfull _ h
  exact ⟨hzero, by simp [savingsSample, savingsOf, hzero]⟩

/-- Claim C16 at a concrete input: an anchor label of distance `10` and a global minimum of
`4` give the sample `0` when the default distance is `0`. -/
theorem savingsSample_default_zero_witness :
    (selectBest ⟨0, 0, 0⟩ [⟨1, 1, 10⟩, ⟨2, 2, 4⟩] [⟨1, 1⟩]).2.walkingDistance = 0
      ∧ savingsSample ⟨0, 0, 0⟩ [⟨1, 1, 10⟩, ⟨2, 2, 4⟩] [⟨1, 1⟩] = 0 :=
  savingsSample_default_zero ⟨0, 0, 0⟩ [⟨1, 1, 10⟩, ⟨2, 2, 4⟩] [⟨1, 1⟩] rfl (by simp)

/-- Among the labels of minimal walking distance the loop keeps the last one: when the
minimum `m` of `fullLabels` is at most the walking distance of the start value, `bestLabel`
is the last label of `fullLabels` of walking distance `m`. -/
theorem foldl_selectStep_fst_last (anchorLabels : List ArrivalLabel)
    (x y : WalkingParetoLabel) :
    ∀ (fullLabels : List WalkingParetoLabel) (m : Int),
      (∃ e ∈ fullLabels, e.walkingDistance = m) →
      (∀ e ∈ fullLabels, m ≤ e.walkingDistance) →
      m ≤ x.walkingDistance →
      (fullLabels.filter (fun l => l.walkingDistance = m)).getLast?
        = some (fullLabels.foldl (selectStep anchorLabels) (x, y)).1 := by
  intro fullLabels
  induction fullLabels using List.reverseRecOn with
  | nil => intro m ⟨e, he, _⟩; simp at he
  | append_singleton init l ih =>
    intro m hex hmin hx
    obtain ⟨f1, f2, f3⟩ := foldl_selectStep_fst anchorLabels init x y
    have hstep : selectStep anchorLabels (init.foldl (selectStep anchorLabels) (x, y)) l
        = selectStep anchorLabels ((init.foldl (selectStep anchorLabels) (x, y)).1,
            (init.foldl (selectStep anchorLabels) (x, y)).2) l := rfl
    rw [List.foldl_append, List.foldl_cons, List.foldl_nil, hstep, selectStep_fst,
      List.filter_append]
    have hml : m ≤ l.walkingDistance := hmin l (by simp)
    have hmw : m ≤ (init.foldl (selectStep anchorLabels) (x, y)).1.walkingDistance := by
      rcases f3 with h | h
      · rw [h]; exact hx
      · exact hmin _ (List.mem_append_left _ h)
    by_cases hc : l.walkingDistance
        ≤ (init.foldl (selectStep anchorLabels) (x, y)).1.walkingDistance
    · have hlm : l.walkingDistance = m := by
        obtain ⟨e, he, hem⟩ := hex
        rcases List.mem_append.1 he with h | h
        · have := f2 e h
          omega
        · simp at h
          subst h
          exact hem
      rw [if_pos hc]
      simp [hlm]
    · have hex1 : ∃ e ∈ init, e.walkingDistance = m := by
        obtain ⟨e, he, hem⟩ := hex
        rcases List.mem_append.1 he with h | h
        · exact ⟨e, h, hem⟩
        · simp at h
          subst h
          rcases f3 with h3 | h3
          · rw [h3] at hc; omega
          · have := hmin _ (List.mem_append_left [e] h3)
            omega
      have hne : ¬ l.walkingDistance = m := by
        obtain ⟨e, he, hem⟩ := hex1
        have := f2 e he
        omega
      simp only [hc, if_false]
      rw [← ih m hex1 (fun e he => hmin e (List.mem_append_left _ he)) hx]
      simp [hne]

/-- Claim C15, as stated, fails: of the two labels `(1, 1, 0)` and `(2, 2, 0)`, which share the
minimal walking distance, the loop selects the second, whether the default walking distance
is `0` or `2147483647`. -/
theorem selectBest_tie_counterexample :
    (selectBest ⟨0, 0, 0⟩ [⟨1, 1, 0⟩, ⟨2, 2, 0⟩] []).1 = ⟨2, 2, 0⟩
      ∧ (selectBest ⟨0, 0, 2147483647⟩ [⟨1, 1, 0⟩, ⟨2, 2, 0⟩] []).1 = ⟨2, 2, 0⟩
      ∧ (selectBest ⟨0, 0, 0⟩ [⟨1, 1, 0⟩, ⟨2, 2, 0⟩] []).1 ≠ ⟨1, 1, 0⟩ := by
  refine ⟨?_, ?_, ?_⟩ <;> simp [selectBest, selectStep]

/-- Claim C15, amended: for every non-empty `fullLabels` whose minimal walking distance `m` is
at most the walking distance of the default-constructed label, the `bestLabel` selected by the
loop is the last label of walking distance `m` in the order of `fullLabels`: ties are broken
last-seen, because the loop compares with `<=`. -/
theorem selectBest_tie_last (dflt : WalkingParetoLabel)
    (fullLabels : List WalkingParetoLabel) (anchorLabels : List ArrivalLabel) (m : Int)
    (hex : ∃ e ∈ fullLabels, e.walkingDistance = m)
    (hmin : ∀ e ∈ fullLabels, m ≤ e.walkingDistance)
    (hdflt : m ≤ dflt.walkingDistance) :
    (fullLabels.filter (fun l => l.walkingDistance = m)).getLast?
      = some (selectBest dflt fullLabels anchorLabels).1 :=
  foldl_selectStep_fst_last anchorLabels dflt dflt fullLabels m hex hmin hdflt

/-- Claim C15, amended, at a concrete input: of three labels of distances `4, 7, 4` the last
label of distance `4` is selected. -/
theorem selectBest_tie_last_witness :
    (selectBest ⟨0, 0, 2147483647⟩ [⟨1, 1, 4⟩, ⟨2, 2, 7⟩, ⟨3, 3, 4⟩] [⟨1, 1⟩]).1 = ⟨3, 3, 4⟩ := by
  have h := selectBest_tie_last ⟨0, 0, 2147483647⟩ [⟨1, 1, 4⟩, ⟨2, 2, 7⟩, ⟨3, 3, 4⟩] [⟨1, 1⟩] 4
    ⟨⟨1, 1, 4⟩, by simp, rfl⟩ (by simp) (by decide)
  simpa using h.symm

/-! ## The cursor stays inside the thresholds -/

/-- The counted inner loop returns the cursor of `advanceCursor`, and its counter grows by
exactly the distance the cursor moved. -/
theorem advanceCursorCount_spec (thresholds : List ℚ) (s : ℚ) :
    ∀ (n j steps : Nat), thresholds.length - j = n → j < thresholds.length →
      ∃ j1, advanceCursorCount thresholds s j steps = .ok (j1, steps + (j1 - j))
        ∧ advanceCursor thresholds s j = .ok j1 ∧ j ≤ j1 ∧ j1 ≤ thresholds.length := by
  intro n
  induction n with
  | zero => intro j steps hn hj; omega
  | succ n ih =>
    intro j steps hn hj
    rw [advanceCursorCount, advanceCursor]
    by_cases hlt : s < thresholds[j]
    · by_cases hend : j + 1 = thresholds.length
      · refine ⟨j + 1, ?_, by simp [hj, hlt, hend], by omega, by omega⟩
        rw [dif_pos hj, if_pos hlt, if_pos hend]
        congr 2
        omega
      · obtain ⟨j1, h1, h2, h3, h4⟩ := ih (j + 1) (steps + 1) (by omega) (by omega)
        refine ⟨j1, ?_, by simp [hj, hlt, hend, h2], by omega, h4⟩
        simp only [hj, hlt, hend, dite_true, if_true, if_false, h1]
        congr 2
        omega
    · exact ⟨j, by simp [hj, hlt], by simp [hj, hlt], le_refl _, by omega⟩

/-- The counted loop over the samples, started inside the thresholds with one count per
threshold, ends without a fault for every list of samples, sorted or not; it returns the
counts of `binLoop`, and its counter grew by the distance the cursor moved, which is at most
the number of thresholds that were left. -/
theorem binLoopCount_spec (thresholds : List ℚ) :
    ∀ (samples : List ℚ) (j steps : Nat) (counts : List Nat),
      counts.length = thresholds.length → j < thresholds.length →
      ∃ j2 counts2,
        binLoopCount thresholds samples j steps counts = .ok (steps + (j2 - j), counts2)
          ∧ binLoop thresholds samples j counts = .ok counts2
          ∧ j ≤ j2 ∧ j2 ≤ thresholds.length ∧ counts2.length = thresholds.length := by
  intro samples
  induction samples with
  | nil =>
    intro j steps counts hlen hj
    exact ⟨j, counts, by simp [binLoopCount], by simp [binLoop], le_refl _, by omega, hlen⟩
  | cons s rest ih =>
    intro j steps counts hlen hj
    obtain ⟨j1, hc, ha, hjj1, hj1⟩ := advanceCursorCount_spec thresholds s _ j steps rfl hj
    by_cases hend : j1 = thresholds.length
    · exact ⟨j1, counts, by simp [binLoopCount, hc, hend], by simp [binLoop, ha, hend],
        hjj1, hj1, hlen⟩
    · have hget : counts[j1]? = some (counts[j1]) :=
        List.getElem?_eq_getElem (by omega)
      obtain ⟨j2, counts2, h1, h2, h3, h4, h5⟩ :=
        ih j1 (steps + (j1 - j)) (counts.set j1 (counts[j1] + 1)) (by simpa using hlen)
          (by omega)
      refine ⟨j2, counts2, ?_, ?_, by omega, h4, h5⟩
      · simp only [binLoopCount, hc, hend, if_false, hget, h1]
        congr 2
        omega
      · simp only [binLoop, ha, hend, if_false, hget, h2]

/-- Claim C17: for every non-empty list of thresholds and every list of samples the binning
loop ends without an out-of-range access, so the cursor `j` is below `thresholds.size()`
at every read of `thresholds[j]` and at every increment of `savingsCount[j]`; it returns one
count per threshold, and `j++` is executed at most `thresholds.size()` times in total. -/
theorem binLoop_in_range (thresholds samples : List ℚ) (hne : thresholds ≠ []) :
    ∃ steps counts,
      binLoopCount thresholds samples 0 0 (List.replicate thresholds.length 0)
          = .ok (steps, counts)
        ∧ binLoop thresholds samples 0 (List.replicate thresholds.length 0) = .ok counts
        ∧ counts.length = thresholds.length
        ∧ steps ≤ thresholds.length := by
  obtain ⟨j2, counts2, h1, h2, _, h4, h5⟩ :=
    binLoopCount_spec thresholds samples 0 0 (List.replicate thresholds.length 0)
      (by simp) (List.length_pos.2 hne)
  exact ⟨0 + (j2 - 0), counts2, h1, h2, h5, by omega⟩

/-- Claim C17 at a concrete input: the samples `0.9, 0.6, 0.1` and the thresholds
`0.75, 0.5, 0.25`; the walk ends with counts and at most three executions of `j++`. -/
theorem binLoop_in_range_witness :
    ∃ steps counts,
      binLoopCount [3 / 4, 1 / 2, 1 / 4] [9 / 10, 6 / 10, 1 / 10] 0 0
          (List.replicate ([3 / 4, 1 / 2, 1 / 4] : List ℚ).length 0) = .ok (steps, counts)
        ∧ binLoop [3 / 4, 1 / 2, 1 / 4] [9 / 10, 6 / 10, 1 / 10] 0
            (List.replicate ([3 / 4, 1 / 2, 1 / 4] : List ℚ).length 0) = .ok counts
        ∧ counts.length = ([3 / 4, 1 / 2, 1 / 4] : List ℚ).length
        ∧ steps ≤ ([3 / 4, 1 / 2, 1 / 4] : List ℚ).length :=
  binLoop_in_range [3 / 4, 1 / 2, 1 / 4] [9 / 10, 6 / 10, 1 / 10] (by simp)

/-! ## The shape of the report -/

theorem foldl_append_flatMap {α β : Type} (g : α → List β) :
    ∀ (l : List α) (out : List β),
      l.foldl (fun out x => out ++ g x) out = out ++ l.flatMap g := by
  intro l
  induction l with
  | nil => intro out; simp
  | cons x rest ih =>
    intro out
    rw [List.foldl_cons, ih, List.flatMap_cons, List.append_assoc]

theorem foldl_append_map {α β : Type} (f : α → β) :
    ∀ (l : List α) (out : List β),
      l.foldl (fun out x => out ++ [f x]) out = out ++ l.map f := by
  intro l
  induction l with
  | nil => intro out; simp
  | cons x rest ih =>
    intro out
    rw [List.foldl_cons, ih, List.map_cons, List.append_assoc, List.singleton_append]

/-- A list of groups of the same length `K`, flattened: it has `length * K` entries, and
entry `t * K + k` is entry `k` of group `t`. -/
theorem flatMap_uniform {α β : Type} (f : α → List β) (K : Nat) :
    ∀ (l : List α), (∀ x ∈ l, (f x).length = K) →
      (l.flatMap f).length = l.length * K
        ∧ ∀ (t k : Nat) (ht : t < l.length), k < K →
            (l.flatMap f)[t * K + k]? = (f l[t])[k]? := by
  intro l
  induction l with
  | nil => intro _; exact ⟨by simp, fun t k ht => by simp at ht⟩
  | cons x rest ih =>
    intro hlen
    obtain ⟨ih1, ih2⟩ := ih (fun y hy => hlen y (List.mem_cons_of_mem _ hy))
    have hx : (f x).length = K := hlen x (List.mem_cons_self _ _)
    refine ⟨?_, ?_⟩
    · rw [List.flatMap_cons, List.length_append, ih1, hx, List.length_cons]
      ring
    · intro t k ht hk
      rw [List.flatMap_cons]
      cases t with
      | zero =>
        rw [Nat.zero_mul, Nat.zero_add, List.getElem?_append_left (by omega)]
        rfl
      | succ t =>
        rw [List.getElem?_append_right (by rw [hx, Nat.succ_mul]; omega)]
        have hidx : (t + 1) * K + k - (f x).length = t * K + k := by
          rw [hx, Nat.succ_mul]; omega
        rw [hidx, ih2 t k (by simpa using ht) hk]
        rfl

theorem headerRow_eq (tripSlacks thresholds : List ℚ) :
    headerRow tripSlacks thresholds
      = Cell.text ("ArrivalSlack")
          :: tripSlacks.flatMap (fun tripSlack => thresholds.map (headerCell tripSlack)) := by
  unfold headerRow
  have hinner : (fun (out : List Cell) (tripSlack : ℚ) =>
      thresholds.foldl (fun out threshold => out ++ [headerCell tripSlack threshold]) out)
      = (fun out tripSlack => out ++ thresholds.map (headerCell tripSlack)) := by
    funext out tripSlack
    exact foldl_append_map (headerCell tripSlack) thresholds out
  rw [hinner, foldl_append_flatMap]
  rfl

/-- With non-empty thresholds the loop over the trip slacks ends without a fault and appends,
for every trip slack in order, one ratio per threshold in the order of the thresholds. -/
theorem writeConfigurations_eq (dflt : WalkingParetoLabel) (engine : Engine)
    (thresholds : List ℚ) (queries : List VertexQuery) (arrivalSlack : ℚ)
    (hne : thresholds ≠ []) :
    ∀ (rest : List ℚ) (out : List Cell),
      writeConfigurations dflt engine thresholds queries arrivalSlack rest out
        = .ok (out ++ rest.flatMap (fun tripSlack =>
            (tally thresholds
              (transferTimeSavings dflt engine queries arrivalSlack tripSlack)).map
              (fun c => Cell.ratio (ratioOf c
                (transferTimeSavings dflt engine queries arrivalSlack tripSlack).length)))) := by
  intro rest
  induction rest with
  | nil => intro out; simp [writeConfigurations]
  | cons tripSlack rest ih =>
    intro out
    simp only [writeConfigurations, savingsCounts_eq_tally thresholds _ hne]
    rw [foldl_append_map, ih, List.flatMap_cons, List.append_assoc]

theorem writeRows_eq (dflt : WalkingParetoLabel) (engine : Engine)
    (tripSlacks thresholds : List ℚ) (queries : List VertexQuery) (hne : thresholds ≠ []) :
    ∀ (rest : List ℚ) (rows : List (List Cell)),
      writeRows dflt engine tripSlacks thresholds queries rest rows
        = .ok (rows ++ rest.map (fun arrivalSlack =>
            Cell.number arrivalSlack :: tripSlacks.flatMap (fun tripSlack =>
              (tally thresholds
                (transferTimeSavings dflt engine queries arrivalSlack tripSlack)).map
                (fun c => Cell.ratio (ratioOf c
                  (transferTimeSavings dflt engine queries arrivalSlack tripSlack).length))))) := by
  intro rest
  induction rest with
  | nil => intro rows; simp [writeRows]
  | cons arrivalSlack rest ih =>
    intro rows
    simp only [writeRows, writeConfigurations_eq dflt engine thresholds queries arrivalSlack hne]
    rw [ih, List.map_cons, List.append_assoc]
    rfl

/-- Claim C12: for `arrivalSlacks` of length `A`, `tripSlacks` of length `T` and non-empty
`thresholds` of length `K`, the report is written without a fault; it has the header row and
exactly `A` data rows, the header and every data row have exactly `1 + T * K` columns, data
row `i` starts with `arrivalSlacks[i]`, and its column `1 + t * K + k` holds ratio `k` of the
configuration `(arrivalSlacks[i], tripSlacks[t])`, under the header column of
`(tripSlacks[t], thresholds[k])`. -/
theorem execute_shape (dflt : WalkingParetoLabel) (engine : Engine)
    (arrivalSlacks tripSlacks thresholds : List ℚ) (queries : List VertexQuery)
    (hne : thresholds ≠ []) :
    ∃ rows, execute dflt engine arrivalSlacks tripSlacks thresholds queries
        = .ok (headerRow tripSlacks thresholds :: rows)
      ∧ rows.length = arrivalSlacks.length
      ∧ (headerRow tripSlacks thresholds).length = 1 + tripSlacks.length * thresholds.length
      ∧ (∀ row ∈ rows, row.length = 1 + tripSlacks.length * thresholds.length)
      ∧ ∀ (i t k : Nat) (hi : i < arrivalSlacks.length) (ht : t < tripSlacks.length)
          (hk : k < thresholds.length),
          ∃ row ratios r, rows[i]? = some row
            ∧ row[0]? = some (Cell.number arrivalSlacks[i])
            ∧ configurationRatios dflt engine thresholds queries arrivalSlacks[i] tripSlacks[t]
                = .ok ratios
            ∧ ratios.length = thresholds.length
            ∧ ratios[k]? = some r
            ∧ row[1 + t * thresholds.length + k]? = some (Cell.ratio r)
            ∧ (headerRow tripSlacks thresholds)[1 + t * thresholds.length + k]?
                = some (headerCell tripSlacks[t] thresholds[k]) := by
  have hhead := flatMap_uniform (fun tripSlack => thresholds.map (headerCell tripSlack))
    thresholds.length tripSlacks (by intro x _; simp)
  have hrow : ∀ arrivalSlack : ℚ, _ :=
    fun arrivalSlack => flatMap_uniform (fun tripSlack =>
      (tally thresholds
        (transferTimeSavings dflt engine queries arrivalSlack tripSlack)).map
        (fun c => Cell.ratio (ratioOf c
          (transferTimeSavings dflt engine queries arrivalSlack tripSlack).length)))
      thresholds.length tripSlacks (by intro x _; simp [tally_length])
  refine ⟨arrivalSlacks.map (fun arrivalSlack =>
      Cell.number arrivalSlack :: tripSlacks.flatMap (fun tripSlack =>
        (tally thresholds
          (transferTimeSavings dflt engine queries arrivalSlack tripSlack)).map
          (fun c => Cell.ratio (ratioOf c
            (transferTimeSavings dflt engine queries arrivalSlack tripSlack).length)))),
    ?_, ?_, ?_, ?_, ?_⟩
  · unfold execute
    rw [writeRows_eq dflt engine tripSlacks thresholds queries hne]
    rfl
  · simp
  · rw [headerRow_eq, List.length_cons, hhead.1]
    omega
  · intro row hrowmem
    obtain ⟨arrivalSlack, _, rfl⟩ := List.mem_map.1 hrowmem
    rw [List.length_cons, (hrow arrivalSlack).1]
    omega
  · intro i t k hi ht hk
    have hget := tally_getElem? thresholds
      (transferTimeSavings dflt engine queries arrivalSlacks[i] tripSlacks[t]) k hk
    refine ⟨Cell.number arrivalSlacks[i] :: tripSlacks.flatMap (fun tripSlack =>
        (tally thresholds
          (transferTimeSavings dflt engine queries arrivalSlacks[i] tripSlack)).map
          (fun c => Cell.ratio (ratioOf c
            (transferTimeSavings dflt engine queries arrivalSlacks[i] tripSlack).length))),
      (tally thresholds
        (transferTimeSavings dflt engine queries arrivalSlacks[i] tripSlacks[t])).map
        (fun c => ratioOf c
          (transferTimeSavings dflt engine queries arrivalSlacks[i] tripSlacks[t]).length),
      ratioOf ((transferTimeSavings dflt engine queries arrivalSlacks[i] tripSlacks[t]).countP
          (fun s => classify s thresholds == some k))
        (transferTimeSavings dflt engine queries arrivalSlacks[i] tripSlacks[t]).length,
      ?_, ?_, ?_, ?_, ?_, ?_, ?_⟩
    · rw [List.getElem?_map, List.getElem?_eq_getElem hi]
      rfl
    · exact List.getElem?_cons_zero
    · unfold configurationRatios
      exact savingsRatios_eq_tally thresholds _ hne
    · simp [tally_length]
    · rw [List.getElem?_map, hget]
      rfl
    · rw [Nat.add_assoc, Nat.add_comm 1, List.getElem?_cons_succ,
        (hrow arrivalSlacks[i]).2 t k ht hk, List.getElem?_map, hget]
      rfl
    · rw [headerRow_eq, Nat.add_assoc, Nat.add_comm 1, List.getElem?_cons_succ,
        hhead.2 t k ht hk, List.getElem?_map, List.getElem?_eq_getElem hk]
      rfl

/-- Claim C12 at the grids of the command, with one query: the report has the header and six
data rows of `1 + 3 * 3` columns each. -/
theorem execute_shape_witness :
    ∃ rows, execute ⟨0, 0, 0⟩ ⟨fun _ _ _ => [⟨1, 1, 0⟩], fun _ _ _ => [⟨1, 1⟩]⟩
          ComputeTransferTimeSavings.arrivalSlacks ComputeTransferTimeSavings.tripSlacks
          ComputeTransferTimeSavings.thresholds [⟨0, 1, 0⟩]
        = .ok (headerRow ComputeTransferTimeSavings.tripSlacks
            ComputeTransferTimeSavings.thresholds :: rows)
      ∧ rows.length = 6
      ∧ (headerRow ComputeTransferTimeSavings.tripSlacks
            ComputeTransferTimeSavings.thresholds).length = 10
      ∧ ∀ row ∈ rows, row.length = 10 := by
  obtain ⟨rows, h1, h2, h3, h4, _⟩ :=
    execute_shape ⟨0, 0, 0⟩ ⟨fun _ _ _ => [⟨1, 1, 0⟩], fun _ _ _ => [⟨1, 1⟩]⟩
      ComputeTransferTimeSavings.arrivalSlacks ComputeTransferTimeSavings.tripSlacks
      ComputeTransferTimeSavings.thresholds [⟨0, 1, 0⟩]
      (by simp [ComputeTransferTimeSavings.thresholds])
  exact ⟨rows, h1, h2, h3, h4⟩

/-! ## The query generators -/

theorem toInt_sizeMinusOne (p : Nat) (hp : 1 ≤ p) (hpmax : p ≤ 2147483648) :
    toInt (sizeMinusOne p) = (p : Int) - 1 := by
  unfold toInt sizeMinusOne
  split_ifs <;> omega

/-- Every draw of one `emplace_back` is inside the range of its distribution, in every
order of evaluation. -/
theorem drawArguments_range {G : Type} (lib : RandomLibrary G)
    (hlib : ∀ a b g, a ≤ b → a ≤ (lib.uniformInt a b g).1 ∧ (lib.uniformInt a b g).1 ≤ b)
    (order : ArgumentOrder) (hi : Int) (hhi : 0 ≤ hi) (g : G) :
    (0 ≤ (drawArguments lib order hi g).1.1 ∧ (drawArguments lib order hi g).1.1 ≤ hi)
      ∧ (0 ≤ (drawArguments lib order hi g).1.2.1 ∧ (drawArguments lib order hi g).1.2.1 ≤ hi)
      ∧ (0 ≤ (drawArguments lib order hi g).1.2.2
          ∧ (drawArguments lib order hi g).1.2.2 ≤ 24 * 60 * 60 - 1) := by
  have hv := fun g => hlib 0 hi g hhi
  have hd := fun g => hlib 0 (24 * 60 * 60 - 1) g (by decide)
  cases order <;> exact ⟨hv _, hv _, hd _⟩

theorem vertexQueryLoop_spec {G : Type} (lib : RandomLibrary G)
    (hlib : ∀ a b g, a ≤ b → a ≤ (lib.uniformInt a b g).1 ∧ (lib.uniformInt a b g).1 ≤ b)
    (order : ArgumentOrder) (hi : Int) (hhi : 0 ≤ hi) :
    ∀ (n : Nat) (g : G) (queries : List VertexQuery),
      (vertexQueryLoop lib order hi n g queries).length = queries.length + n
        ∧ ∀ x ∈ vertexQueryLoop lib order hi n g queries,
            x ∈ queries ∨ (((x.source : Nat) : Int) ≤ hi ∧ ((x.target : Nat) : Int) ≤ hi
              ∧ 0 ≤ x.departureTime ∧ x.departureTime ≤ 24 * 60 * 60 - 1) := by
  intro n
  induction n with
  | zero => intro g queries; exact ⟨rfl, fun x hx => Or.inl hx⟩
  | succ n ih =>
    intro g queries
    obtain ⟨⟨hs0, hs1⟩, ⟨ht0, ht1⟩, hd0, hd1⟩ := drawArguments_range lib hlib order hi hhi g
    obtain ⟨h1, h2⟩ := ih (drawArguments lib order hi g).2
      (queries ++ [⟨(drawArguments lib order hi g).1.1.toNat,
        (drawArguments lib order hi g).1.2.1.toNat, (drawArguments lib order hi g).1.2.2⟩])
    refine ⟨?_, ?_⟩
    · rw [vertexQueryLoop, h1, List.length_append, List.length_singleton]
      omega
    · intro x hx
      rw [vertexQueryLoop] at hx
      rcases h2 x hx with h | h
      · rcases List.mem_append.1 h with h | h
        · exact Or.inl h
        · right
          rw [List.mem_singleton] at h
          subst h
          refine ⟨?_, ?_, hd0, hd1⟩
          · show (((drawArguments lib order hi g).1.1.toNat : Nat) : Int) ≤ hi
            omega
          · show (((drawArguments lib order hi g).1.2.1.toNat : Nat) : Int) ≤ hi
            omega
      · exact Or.inr h

theorem stopQueryLoop_spec {G : Type} (lib : RandomLibrary G)
    (hlib : ∀ a b g, a ≤ b → a ≤ (lib.uniformInt a b g).1 ∧ (lib.uniformInt a b g).1 ≤ b)
    (order : ArgumentOrder) (hi : Int) (hhi : 0 ≤ hi) :
    ∀ (n : Nat) (g : G) (queries : List StopQuery),
      (stopQueryLoop lib order hi n g queries).length = queries.length + n
        ∧ ∀ x ∈ stopQueryLoop lib order hi n g queries,
            x ∈ queries ∨ (((x.source : Nat) : Int) ≤ hi ∧ ((x.target : Nat) : Int) ≤ hi
              ∧ 0 ≤ x.departureTime ∧ x.departureTime ≤ 24 * 60 * 60 - 1) := by
  intro n
  induction n with
  | zero => intro g queries; exact ⟨rfl, fun x hx => Or.inl hx⟩
  | succ n ih =>
    intro g queries
    obtain ⟨⟨hs0, hs1⟩, ⟨ht0, ht1⟩, hd0, hd1⟩ := drawArguments_range lib hlib order hi hhi g
    obtain ⟨h1, h2⟩ := ih (drawArguments lib order hi g).2
      (queries ++ [⟨(drawArguments lib order hi g).1.1.toNat,
        (drawArguments lib order hi g).1.2.1.toNat, (drawArguments lib order hi g).1.2.2⟩])
    refine ⟨?_, ?_⟩
    · rw [stopQueryLoop, h1, List.length_append, List.length_singleton]
      omega
    · intro x hx
      rw [stopQueryLoop] at hx
      rcases h2 x hx with h | h
      · rcases List.mem_append.1 h with h | h
        · exact Or.inl h
        · right
          rw [List.mem_singleton] at h
          subst h
          refine ⟨?_, ?_, hd0, hd1⟩
          · show (((drawArguments lib order hi g).1.1.toNat : Nat) : Int) ≤ hi
            omega
          · show (((drawArguments lib order hi g).1.2.1.toNat : Nat) : Int) ≤ hi
            omega
      · exact Or.inr h

theorem drawArguments_congr {G : Type} (lib1 lib2 : RandomLibrary G)
    (h : lib1.uniformInt = lib2.uniformInt) (order : ArgumentOrder) (hi : Int) (g : G) :
    drawArguments lib1 order hi g = drawArguments lib2 order hi g := by
  cases order <;> simp only [drawArguments, h]

/-- The loop of the vertex generator uses the library through its distribution only. -/
theorem vertexQueryLoop_congr {G : Type} (lib1 lib2 : RandomLibrary G)
    (h : lib1.uniformInt = lib2.uniformInt) (order : ArgumentOrder) (hi : Int) :
    ∀ (n : Nat) (g : G) (queries : List VertexQuery),
      vertexQueryLoop lib1 order hi n g queries = vertexQueryLoop lib2 order hi n g queries := by
  intro n
  induction n with
  | zero => intro g queries; rfl
  | succ n ih =>
    intro g queries
    simp only [vertexQueryLoop, drawArguments_congr lib1 lib2 h, ih]

/-- The loop of the stop generator uses the library through its distribution only. -/
theorem stopQueryLoop_congr {G : Type} (lib1 lib2 : RandomLibrary G)
    (h : lib1.uniformInt = lib2.uniformInt) (order : ArgumentOrder) (hi : Int) :
    ∀ (n : Nat) (g : G) (queries : List StopQuery),
      stopQueryLoop lib1 order hi n g queries = stopQueryLoop lib2 order hi n g queries := by
  intro n
  induction n with
  | zero => intro g queries; rfl
  | succ n ih =>
    intro g queries
    simp only [stopQueryLoop, drawArguments_congr lib1 lib2 h, ih]

/-- Claim C14, as stated, fails: the population size `p = 2^31 + 1` is at least `1`, but
`p - 1 = 2^31` is narrowed to the `int` bound `-2^31` of the distribution, whose construction
over `[0, -2^31]` is undefined; neither generator returns a list of queries. -/
theorem generateRandomQueries_counterexample :
    (1 : Nat) ≤ 2147483649
      ∧ toInt (sizeMinusOne 2147483649) = -2147483648
      ∧ generateRandomVertexQueries
          (⟨fun seed => seed, fun a b g => (a + (g : Int) % (b - a + 1), g + 1)⟩ :
            RandomLibrary Nat) ArgumentOrder.std 2147483649 1 = .error .precondition
      ∧ generateRandomStopQueries
          (⟨fun seed => seed, fun a b g => (a + (g : Int) % (b - a + 1), g + 1)⟩ :
            RandomLibrary Nat) ArgumentOrder.std 2147483649 1 = .error .precondition := by
  have h : toInt (sizeMinusOne 2147483649) = -2147483648 := by decide
  exact ⟨by decide, h, by simp [generateRandomVertexQueries, h],
    by simp [generateRandomStopQueries, h]⟩

/-- Claim C14, amended: for every population size `p` with `1 <= p <= 2^31` (so that `p - 1`
is an `int`), every query count `q`, every order of evaluation of the arguments and every
standard library whose `uniform_int_distribution(a, b)` draws from `[a, b]`,
`generateRandomVertexQueries(p, q)` and `generateRandomStopQueries(p, q)` return exactly `q`
queries, each with source and target in `[0, p)` and departure time in `[0, 86400)`. The
sequence is reproducible: it is the one drawn from the engine state of the seed `42`, so any
two calls with the same `(p, q)`, in any two settings that agree on the distribution and on
the engine seeded with `42`, return the identical sequence. -/
theorem generateRandomQueries_spec {G : Type} (lib : RandomLibrary G)
    (order : ArgumentOrder) (p q : Nat)
    (hlib : ∀ a b g, a ≤ b → a ≤ (lib.uniformInt a b g).1 ∧ (lib.uniformInt a b g).1 ≤ b)
    (hp : 1 ≤ p) (hpmax : p ≤ 2147483648) :
    (∃ queries, generateRandomVertexQueries lib order p q = .ok queries
        ∧ queries.length = q
        ∧ ∀ x ∈ queries, x.source < p ∧ x.target < p
            ∧ 0 ≤ x.departureTime ∧ x.departureTime < 86400)
      ∧ (∃ queries, generateRandomStopQueries lib order p q = .ok queries
        ∧ queries.length = q
        ∧ ∀ x ∈ queries, x.source < p ∧ x.target < p
            ∧ 0 ≤ x.departureTime ∧ x.departureTime < 86400)
      ∧ (∀ other : RandomLibrary G, other.uniformInt = lib.uniformInt →
          other.mt19937 42 = lib.mt19937 42 →
          generateRandomVertexQueries other order p q = generateRandomVertexQueries lib order p q
            ∧ generateRandomStopQueries other order p q
                = generateRandomStopQueries lib order p q) := by
  have hhi := toInt_sizeMinusOne p hp hpmax
  have hnn : (0 : Int) ≤ (p : Int) - 1 := by omega
  refine ⟨?_, ?_, ?_⟩
  · obtain ⟨h1, h2⟩ := vertexQueryLoop_spec lib hlib order ((p : Int) - 1) hnn q
      (lib.mt19937 42) []
    refine ⟨vertexQueryLoop lib order ((p : Int) - 1) q (lib.mt19937 42) [],
      by simp only [generateRandomVertexQueries, hhi, hnn, if_true], by simpa using h1, ?_⟩
    intro x hx
    rcases h2 x hx with h | ⟨hs, ht, hd0, hd1⟩
    · simp at h
    · exact ⟨by omega, by omega, hd0, by omega⟩
  · obtain ⟨h1, h2⟩ := stopQueryLoop_spec lib hlib order ((p : Int) - 1) hnn q
      (lib.mt19937 42) []
    refine ⟨stopQueryLoop lib order ((p : Int) - 1) q (lib.mt19937 42) [],
      by simp only [generateRandomStopQueries, hhi, hnn, if_true], by simpa using h1, ?_⟩
    intro x hx
    rcases h2 x hx with h | ⟨hs, ht, hd0, hd1⟩
    · simp at h
    · exact ⟨by omega, by omega, hd0, by omega⟩
  · intro other hdist hseed
    constructor
    · simp only [generateRandomVertexQueries, hseed,
        vertexQueryLoop_congr other lib hdist]
    · simp only [generateRandomStopQueries, hseed,
        stopQueryLoop_congr other lib hdist]

/-- Claim C14, amended, at a concrete input: a library whose engine state is a counter and
whose distribution over `[a, b]` returns `a + state mod (b - a + 1)`; population `100`, `50`
queries. -/
theorem generateRandomQueries_spec_witness :
    ∃ queries,
      generateRandomStopQueries
          (⟨fun seed => seed, fun a b g => (a + (g : Int) % (b - a + 1), g + 1)⟩ :
            RandomLibrary Nat) ArgumentOrder.std 100 50 = .ok queries
        ∧ queries.length = 50
        ∧ ∀ x ∈ queries, x.source < 100 ∧ x.target < 100
            ∧ 0 ≤ x.departureTime ∧ x.departureTime < 86400 :=
  (generateRandomQueries_spec
    (⟨fun seed => seed, fun a b g => (a + (g : Int) % (b - a + 1), g + 1)⟩ :
      RandomLibrary Nat) ArgumentOrder.std 100 50
    (by
      intro a b g hab
      have h1 : (0 : Int) < b - a + 1 := by omega
      have h2 := Int.emod_nonneg (g : Int) (ne_of_gt h1)
      have h3 := Int.emod_lt_of_pos (g : Int) h1
      constructor
      · show a ≤ a + (g : Int) % (b - a + 1)
        omega
      · show a + (g : Int) % (b - a + 1) ≤ b
        omega)
    (by decide) (by decide)).2.1

/-! ## Outside the defined behaviour -/

/-- With no threshold and one sample the cursor walk reads `thresholds[0]` out of range. -/
theorem savingsCounts_no_thresholds :
    savingsCounts [] [1 / 2] = .error .outOfRange := by
  simp [savingsCounts, sortDescending, binLoop, advanceCursor]

/-- With `2^31 + 1` vertices `numVertices - 1` does not fit an `int`: the bounds of the
distribution are `0` and `-2^31`, and its construction is undefined. -/
theorem generateRandomVertexQueries_out_of_int {G : Type} (lib : RandomLibrary G)
    (order : ArgumentOrder) (q : Nat) :
    generateRandomVertexQueries lib order 2147483649 q = .error .precondition := by
  have h : toInt (sizeMinusOne 2147483649) = -2147483648 := by decide
  simp [generateRandomVertexQueries, h]

/-! ## One sample per query, and the division by the number of samples -/

theorem emplaceSample_eq (dflt : WalkingParetoLabel) (engine : Engine)
    (arrivalSlack tripSlack : ℚ) (acc : List ℚ) (query : VertexQuery) :
    emplaceSample dflt engine arrivalSlack tripSlack acc query
      = acc ++ [savingsSample dflt (engine.getResults query arrivalSlack tripSlack)
          (engine.getAnchorLabels query arrivalSlack tripSlack)] := by
  unfold emplaceSample savingsSample savingsOf
  by_cases h : (selectBest dflt (engine.getResults query arrivalSlack tripSlack)
      (engine.getAnchorLabels query arrivalSlack tripSlack)).2.walkingDistance = 0
  · simp only [h, if_true]
  · simp only [h, if_false]

/-- The loop over the queries, statement by statement, builds the list of the savings
samples of the queries, in their order. -/
theorem queryLoop_eq (dflt : WalkingParetoLabel) (engine : Engine)
    (queries : List VertexQuery) (arrivalSlack tripSlack : ℚ) :
    queryLoop dflt engine queries arrivalSlack tripSlack
      = transferTimeSavings dflt engine queries arrivalSlack tripSlack := by
  unfold queryLoop transferTimeSavings
  have hstep : emplaceSample dflt engine arrivalSlack tripSlack
      = (fun acc query => acc ++ [savingsSample dflt
          (engine.getResults query arrivalSlack tripSlack)
          (engine.getAnchorLabels query arrivalSlack tripSlack)]) := by
    funext acc query
    exact emplaceSample_eq dflt engine arrivalSlack tripSlack acc query
  rw [hstep, foldl_append_map]
  rfl

/-- Every iteration of the loop over the queries makes the vector one longer, whichever
`emplace_back` it takes. -/
theorem emplaceSample_length (dflt : WalkingParetoLabel) (engine : Engine)
    (arrivalSlack tripSlack : ℚ) (acc : List ℚ) (query : VertexQuery) :
    (emplaceSample dflt engine arrivalSlack tripSlack acc query).length = acc.length + 1 := by
  unfold emplaceSample
  by_cases h : (selectBest dflt (engine.getResults query arrivalSlack tripSlack)
      (engine.getAnchorLabels query arrivalSlack tripSlack)).2.walkingDistance = 0
  · simp [h]
  · simp [h]

theorem foldl_emplaceSample_length (dflt : WalkingParetoLabel) (engine : Engine)
    (arrivalSlack tripSlack : ℚ) :
    ∀ (queries : List VertexQuery) (acc : List ℚ),
      (queries.foldl (emplaceSample dflt engine arrivalSlack tripSlack) acc).length
        = acc.length + queries.length := by
  intro queries
  induction queries with
  | nil => intro acc; rfl
  | cons query rest ih =>
    intro acc
    rw [List.foldl_cons, ih, emplaceSample_length, List.length_cons]
    omega

/-- Claim C11: for every list of queries and every configuration the loop over the queries
appends exactly one savings sample per query, whichever branch is taken, so the sample list
has the length of the query list. With non-empty thresholds the bucket counts `c` of these
samples exist, one per threshold, and the ratio written for bucket `j` is the rational
`c / (number of queries)` when there is a query, and the `NaN` of `0 / 0` when there is
none. -/
theorem queryLoop_length_and_ratios (dflt : WalkingParetoLabel) (engine : Engine)
    (thresholds : List ℚ) (queries : List VertexQuery) (arrivalSlack tripSlack : ℚ)
    (hne : thresholds ≠ []) :
    (queryLoop dflt engine queries arrivalSlack tripSlack).length = queries.length
      ∧ ∃ counts ratios,
          savingsCounts thresholds (queryLoop dflt engine queries arrivalSlack tripSlack)
              = .ok counts
            ∧ configurationRatios dflt engine thresholds queries arrivalSlack tripSlack
              = .ok ratios
            ∧ counts.length = thresholds.length
            ∧ ratios.length = thresholds.length
            ∧ ∀ j, j < thresholds.length →
                ∃ c, counts[j]? = some c
                  ∧ (queries ≠ [] →
                      ratios[j]? = some (Ratio.value ((c : ℚ) / (queries.length : ℚ))))
                  ∧ (queries = [] → c = 0 ∧ ratios[j]? = some Ratio.nan) := by
  have hlen : (queryLoop dflt engine queries arrivalSlack tripSlack).length
      = queries.length := by
    unfold queryLoop
    rw [foldl_emplaceSample_length]
    simp
  have hlen2 : (transferTimeSavings dflt engine queries arrivalSlack tripSlack).length
      = queries.length := by rw [← queryLoop_eq, hlen]
  refine ⟨hlen, tally thresholds (transferTimeSavings dflt engine queries arrivalSlack tripSlack),
    (tally thresholds (transferTimeSavings dflt engine queries arrivalSlack tripSlack)).map
      (fun c => ratioOf c (transferTimeSavings dflt engine queries arrivalSlack tripSlack).length),
    ?_, ?_, tally_length _ _, by simp [tally_length], ?_⟩
  · rw [queryLoop_eq]
    exact savingsCounts_eq_tally thresholds _ hne
  · unfold configurationRatios
    exact savingsRatios_eq_tally thresholds _ hne
  · intro j hj
    have hget := tally_getElem? thresholds
      (transferTimeSavings dflt engine queries arrivalSlack tripSlack) j hj
    refine ⟨_, hget, ?_, ?_⟩
    · intro hq
      have hpos : queries.length ≠ 0 := fun h => hq (List.length_eq_zero.1 h)
      rw [List.getElem?_map, hget, Option.map_some', hlen2]
      simp only [ratioOf, hpos, if_false]
    · intro hq
      subst hq
      refine ⟨by simp [transferTimeSavings], ?_⟩
      rw [List.getElem?_map, hget, Option.map_some']
      simp [transferTimeSavings, ratioOf]

/-- Claim C11 at a concrete input: two queries whose labels `(1, 1, 10)` and `(2, 2, 1)` with
the anchor label `(1, 1)` give the sample `0.9` twice; two samples are appended, bucket `0`
holds `2`, and the ratio written for it is `2 / 2`. -/
theorem queryLoop_length_and_ratios_witness :
    (queryLoop ⟨0, 0, 2147483647⟩
        ⟨fun _ _ _ => [⟨1, 1, 10⟩, ⟨2, 2, 1⟩], fun _ _ _ => [⟨1, 1⟩]⟩
        [⟨0, 1, 0⟩, ⟨1, 0, 60⟩] 1 1).length = 2
      ∧ ∃ ratios,
          configurationRatios ⟨0, 0, 2147483647⟩
            ⟨fun _ _ _ => [⟨1, 1, 10⟩, ⟨2, 2, 1⟩], fun _ _ _ => [⟨1, 1⟩]⟩
            ComputeTransferTimeSavings.thresholds [⟨0, 1, 0⟩, ⟨1, 0, 60⟩] 1 1 = .ok ratios
          ∧ ratios[0]? = some (Ratio.value ((2 : ℚ) / 2)) := by
  obtain ⟨h1, counts, ratios, h2, h3, _, _, h6⟩ :=
    queryLoop_length_and_ratios ⟨0, 0, 2147483647⟩
      ⟨fun _ _ _ => [⟨1, 1, 10⟩, ⟨2, 2, 1⟩], fun _ _ _ => [⟨1, 1⟩]⟩
      ComputeTransferTimeSavings.thresholds [⟨0, 1, 0⟩, ⟨1, 0, 60⟩] 1 1
      (by simp [ComputeTransferTimeSavings.thresholds])
  refine ⟨h1, ratios, h3, ?_⟩
  obtain ⟨c, hc, hvalue, _⟩ := h6 0 (by simp [ComputeTransferTimeSavings.thresholds])
  have hcounts : savingsCounts ComputeTransferTimeSavings.thresholds
      (queryLoop ⟨0, 0, 2147483647⟩
        ⟨fun _ _ _ => [⟨1, 1, 10⟩, ⟨2, 2, 1⟩], fun _ _ _ => [⟨1, 1⟩]⟩
        [⟨0, 1, 0⟩, ⟨1, 0, 60⟩] 1 1) = .ok [2, 0, 0] := by
    rw [queryLoop_eq, savingsCounts_eq_tally _ _ (by simp [ComputeTransferTimeSavings.thresholds])]
    norm_num [transferTimeSavings, savingsSample, selectBest, selectStep, isAnchorLabel,
      savingsOf, ComputeTransferTimeSavings.thresholds, tally, classify, List.countP_cons,
      List.range_succ]
  rw [h2] at hcounts
  have hceq : counts = [2, 0, 0] := Except.ok.inj hcounts
  subst hceq
  have hc2 : c = 2 := by simpa using hc.symm
  subst hc2
  have := hvalue (by simp)
  simpa using this

end ULTRA
